import Mathlib

/-!
Verification of the shorelark genetic-algorithm engine and simulation controller.

Source files embedded here:
* `src/libs/genetic-algorithm/src/lib.rs` — chromosome, roulette-wheel selection
  (rand 0.8's `choose_weighted`), uniform crossover, Gaussian mutation, and the
  per-generation `evolve` loop;
* `src/libs/simulation/src/lib.rs` — the per-step pipeline (collisions, brains,
  movement), the generation boundary, and `choose_best`.

Modelling conventions: `f32` values are embedded as `ℚ`; the random source
(`dyn RngCore`, in practice a ChaCha stream) is embedded as an infinite stream of
rational draws together with a cursor, every primitive draw consuming one stream
position, its value normalised into `[0,1)`; Rust panics (`assert!`, `expect`)
are embedded as `Option`/`Except` failure.
-/

/-- Fractional part of a rational, used to normalise stream values into `[0,1)`. -/
def fract (q : ℚ) : ℚ := q - ⌊q⌋

/-- The random source: an infinite stream of draws plus a cursor.  Matches a seeded
PRNG in a given state; two sources in the same state agree on the cursor and on the
stream from the cursor onwards. -/
structure Rng where
  stream : Nat → ℚ
  idx : Nat

/-- One primitive uniform draw in `[0,1)`; advances the cursor by one. -/
def Rng.next (r : Rng) : ℚ × Rng :=
  (fract (r.stream r.idx), ⟨r.stream, r.idx + 1⟩)

/-- rand's `Rng::gen_bool(p)`: one draw, true iff the draw is below `p`. -/
def Rng.genBool (r : Rng) (p : ℚ) : Bool × Rng :=
  let n := r.next
  (decide (n.1 < p), n.2)

/-- `rng.gen::<f32>()`: one uniform draw in `[0,1)`. -/
def Rng.genUnit (r : Rng) : ℚ × Rng := r.next

/-- `rng.gen()` at type `Point2<f32>` (used for food respawn positions): one draw per
coordinate. -/
def Rng.genPoint (r : Rng) : (ℚ × ℚ) × Rng :=
  let x := r.next
  let y := x.2.next
  ((x.1, y.1), y.2)

/-- Two random sources in an identical state: same cursor, and the same stream from the
cursor onwards. -/
def Rng.Agree (r r' : Rng) : Prop :=
  r.idx = r'.idx ∧ ∀ j, r.idx ≤ j → r.stream j = r'.stream j

/-- Error cases of rand 0.8's `WeightedError`, as produced by `choose_weighted`:
`noItem` for an empty slice, `invalidWeight` for a negative weight, `allWeightsZero`
for a zero total. -/
inductive WeightedError
  | noItem
  | invalidWeight
  | allWeightsZero
deriving DecidableEq

/-- Weight-scanning loop of rand 0.8's `WeightedIndex::new`: pushes the running total
before adding each weight (building the cumulative-weights vector) and fails on any
negative weight.  Returns the cumulative weights and the final total. -/
def wiLoop (total : ℚ) (acc : List ℚ) : List ℚ → Except WeightedError (List ℚ × ℚ)
  | [] => .ok (acc.reverse, total)
  | w :: ws => if w < 0 then .error .invalidWeight else wiLoop (total + w) (total :: acc) ws

/-- rand 0.8's `WeightedIndex::new`: empty input fails with `noItem`; a negative weight
(checked as `!(w >= 0)`) fails with `invalidWeight`; a zero total fails with
`allWeightsZero`. -/
def weightedIndexNew : List ℚ → Except WeightedError (List ℚ × ℚ)
  | [] => .error .noItem
  | w0 :: rest =>
    if w0 < 0 then .error .invalidWeight
    else
      match wiLoop w0 [] rest with
      | .error e => .error e
      | .ok (cum, total) =>
        if total = 0 then .error .allWeightsZero else .ok (cum, total)

/-- rand 0.8's `SliceRandom::choose_weighted`: build the weighted index over
`pop.map fit`, draw one uniform sample in `[0, total)`, and return the element at the
`partition_point` of the cumulative weights (the length of the prefix of cumulative
weights that are `≤` the sample).  The resulting index is always `< pop.length`, so the
`getD` fallback to the head is unreachable. -/
def chooseWeighted {I : Type} (fit : I → ℚ) (pop : List I) (r : Rng) :
    Except WeightedError (I × Rng) :=
  match weightedIndexNew (pop.map fit) with
  | .error e => .error e
  | .ok (cum, total) =>
    match pop with
    | [] => .error .noItem
    | p :: ps =>
      let u := r.next
      let chosen := u.1 * total
      let i := (cum.takeWhile (fun w => decide (w ≤ chosen))).length
      .ok ((p :: ps).getD i p, u.2)

/-- `RouletteWheelSelection::select` (lib.rs:61-70): `choose_weighted(rng, fitness)`
followed by `.expect(...)`; the panic is kept as the `Except.error` case. -/
def rouletteSelect {I : Type} (fit : I → ℚ) (pop : List I) (r : Rng) :
    Except WeightedError (I × Rng) :=
  chooseWeighted fit pop r

/-- `Chromosome` (lib.rs:72-75): an ordered sequence of `f32` genes. -/
structure Chromosome where
  genes : List ℚ
deriving DecidableEq

/-- Gene loop of `UniformCrossover::crossover` (lib.rs:136-140): one fair coin flip per
gene position, taking the allele from parent a on true and parent b otherwise; the `zip`
truncates at the shorter parent. -/
def crossoverGenes : List ℚ → List ℚ → Rng → List ℚ × Rng
  | a :: xs, b :: ys, r =>
    let f := r.genBool (1/2)
    let rest := crossoverGenes xs ys f.2
    ((if f.1 then a else b) :: rest.1, rest.2)
  | _, _, r => ([], r)

/-- `UniformCrossover::crossover` (lib.rs:127-142): `assert_eq!` on the parent lengths
(embedded as `none` on mismatch), then the per-gene coin-flip loop. -/
def uniformCrossover (r : Rng) (pa pb : Chromosome) : Option (Chromosome × Rng) :=
  if pa.genes.length = pb.genes.length then
    let p := crossoverGenes pa.genes pb.genes r
    some (⟨p.1⟩, p.2)
  else none

/-- `GaussianMutation` (lib.rs:148-151): per-gene perturbation chance and magnitude
coefficient. -/
structure GaussianMutation where
  chance : ℚ
  coeff : ℚ
deriving DecidableEq

/-- `GaussianMutation::new` (lib.rs:153-159): `assert!(chance >= 0.0 && chance <= 1.0)`
embedded as `none` out of range; the coefficient is not validated. -/
def GaussianMutation.new (chance coeff : ℚ) : Option GaussianMutation :=
  if 0 ≤ chance ∧ chance ≤ 1 then some ⟨chance, coeff⟩ else none

/-- Gene loop of `GaussianMutation::mutate` (lib.rs:161-171): for every gene, one fair
sign draw (`-1` on true, `1` on false), then one chance draw, and — only when it
triggers — one magnitude draw `u`, adding `sign * coeff * u` to the gene. -/
def mutateGenes (m : GaussianMutation) : List ℚ → Rng → List ℚ × Rng
  | [], r => ([], r)
  | g :: gs, r =>
    let sb := r.genBool (1/2)
    let sign : ℚ := if sb.1 then -1 else 1
    let hb := sb.2.genBool m.chance
    let upd : ℚ × Rng :=
      if hb.1 then
        let u := hb.2.next
        (g + sign * m.coeff * u.1, u.2)
      else (g, hb.2)
    let rest := mutateGenes m gs upd.2
    (upd.1 :: rest.1, rest.2)

/-- `GaussianMutation::mutate` on a chromosome. -/
def gaussianMutate (m : GaussianMutation) (r : Rng) (c : Chromosome) : Chromosome × Rng :=
  let p := mutateGenes m c.genes r
  (⟨p.1⟩, p.2)

/-- The `Individual` trait (lib.rs:48-52): fitness, chromosome access, and construction
from a chromosome. -/
structure IndividualOps (I : Type) where
  fitness : I → ℚ
  chromosome : I → Chromosome
  create : Chromosome → I

/-- Offspring loop of `GeneticAlgorithm::evolve` (lib.rs:33-44): for each output slot,
select parent a, select parent b, crossover their chromosomes, mutate the child, and
materialise it via `create`.  A selection panic or a crossover assertion failure aborts
the whole call (`none`). -/
def evolveLoop {I : Type} (ops : IndividualOps I) (gm : GaussianMutation)
    (pop : List I) : Nat → Rng → Option (List I × Rng)
  | 0, r => some ([], r)
  | n + 1, r =>
    match rouletteSelect ops.fitness pop r with
    | .error _ => none
    | .ok (pa, r1) =>
      match rouletteSelect ops.fitness pop r1 with
      | .error _ => none
      | .ok (pb, r2) =>
        match uniformCrossover r2 (ops.chromosome pa) (ops.chromosome pb) with
        | none => none
        | some (child, r3) =>
          let mu := gaussianMutate gm r3 child
          match evolveLoop ops gm pop n mu.2 with
          | none => none
          | some (rest, r4) => some (ops.create mu.1 :: rest, r4)

/-- `GeneticAlgorithm::evolve` (lib.rs:27-45): asserts the population non-empty
(embedded as `none`), then produces `population.len()` offspring in index order.
As written in src it returns only the new population — no statistics. -/
def gaEvolve {I : Type} (ops : IndividualOps I) (gm : GaussianMutation)
    (pop : List I) (r : Rng) : Option (List I × Rng) :=
  if pop.isEmpty then none else evolveLoop ops gm pop pop.length r

/-- Modelled from the spec: `ga::Statistics`, the summary type destructured by
`Simulation::evolve` (simulation lib.rs:116) but absent from
`src/libs/genetic-algorithm/src/lib.rs` — the minimum, maximum and average fitness
over the input population (spec §4.5). -/
structure Statistics where
  minFitness : ℚ
  maxFitness : ℚ
  avgFitness : ℚ
deriving DecidableEq

/-- Modelled from the spec: min/max/average of a fitness list (spec §4.5). -/
def statisticsOf (fits : List ℚ) : Statistics :=
  match fits with
  | [] => ⟨0, 0, 0⟩
  | f :: rest => ⟨rest.foldl min f, rest.foldl max f, (f + rest.sum) / (rest.length + 1)⟩

/-- Modelled from the spec: the population-plus-statistics evolve contract adopted by
spec §4.5 and expected by `Simulation::evolve`; the statistics are computed over the
input population, before replacement. -/
def gaEvolveWithStats {I : Type} (ops : IndividualOps I) (gm : GaussianMutation)
    (pop : List I) (r : Rng) : Option ((List I × Statistics) × Rng) :=
  match gaEvolve ops gm pop r with
  | none => none
  | some (out, r1) => some ((out, statisticsOf (pop.map ops.fitness)), r1)

/-- Modelled from the spec (animal_individual.rs is not under src/): an individual is
the animal's satiation-as-float fitness paired with its chromosome; `create` stores the
chromosome with zero fitness. -/
structure AnimalIndividual where
  fitness : ℚ
  chromosome : Chromosome
deriving DecidableEq

/-- The `Individual` implementation for `AnimalIndividual`. -/
def animalOps : IndividualOps AnimalIndividual :=
  ⟨fun i => i.fitness, fun i => i.chromosome, fun c => ⟨0, c⟩⟩

/-- A concrete random source: the all-zero stream at cursor 0. -/
def rng0 : Rng := ⟨fun _ => 0, 0⟩

/-- The mutation parameters `GaussianMutation::new(0.01, 0.3)` used by
`Simulation::random`. -/
def gmC : GaussianMutation := ⟨1/100, 3/10⟩

/-- A concrete two-individual population with fitnesses 1 and 2. -/
def popC1 : List AnimalIndividual := [⟨1, ⟨[1]⟩⟩, ⟨2, ⟨[2]⟩⟩]

/-- A concrete one-individual population used as a determinism witness input. -/
def popW : List AnimalIndividual := [⟨1, ⟨[0]⟩⟩]

/-- `Food` (food.rs is not under src/; fields from its usage in simulation lib.rs):
a position in the unit square. -/
structure Food where
  position : ℚ × ℚ
deriving DecidableEq

/-- Modelled from the spec (brain.rs is not under src/): the decision function is
parameterised by a flat weight list taken from a chromosome (§6); only that weight set
matters here — the forward pass itself is an external collaborator. -/
structure Brain where
  chromosome : Chromosome
deriving DecidableEq

/-- Modelled from the spec (animal.rs is not under src/): an agent has a position,
heading, speed, satiation counter and a brain; the parameterless eye configuration
carries no data and is omitted.  The heading `Rotation2` is embedded as its unit
direction vector (cos θ, sin θ). -/
structure Animal where
  position : ℚ × ℚ
  rotation : ℚ × ℚ
  speed : ℚ
  satiation : Nat
  brain : Brain
deriving DecidableEq

/-- `World` (world.rs is not under src/; fields from its usage in simulation lib.rs):
the animal and food collections. -/
structure World where
  animals : List Animal
  foods : List Food
deriving DecidableEq

/-- External collaborators of the simulation (spec §6) plus the operations that need
real-valued trigonometry, kept abstract: the eye's `process_vision`, the brain's
`propagate` (fixed output width 2), `Rotation2::new(angle + δ)` as `rotate`, the
irrational `ROTATION_ACCEL = π/2` bound, and the fresh random physics
(position/heading/speed) drawn by `Animal::new` / `Animal::random` (spec §4.6). -/
structure SimEnv where
  processVision : (ℚ × ℚ) → (ℚ × ℚ) → List Food → List ℚ
  propagate : Chromosome → List ℚ → ℚ × ℚ
  rotate : (ℚ × ℚ) → ℚ → (ℚ × ℚ)
  rotationAccel : ℚ
  newPhysics : Rng → ((ℚ × ℚ) × (ℚ × ℚ) × ℚ) × Rng
  randomChromosome : Rng → Chromosome × Rng

/-- `GENERATION_LENGTH` (simulation lib.rs:21). -/
def GENERATION_LENGTH : Nat := 2500

/-- `f32::clamp(lo, hi)`. -/
def clampQ (x lo hi : ℚ) : ℚ := if x < lo then lo else if x > hi then hi else x

/-- Squared Euclidean distance; `na::distance(p, q) <= 0.01` is embedded as
`dist2 p q <= 1/10000`, equivalent because both sides are non-negative. -/
def dist2 (p q : ℚ × ℚ) : ℚ := (p.1 - q.1) * (p.1 - q.1) + (p.2 - q.2) * (p.2 - q.2)

/-- Inner loop of `process_collisions` (simulation lib.rs:93-104) for one animal: scan
the foods in order; on contact increment satiation and respawn the food at a fresh
random position (two draws). -/
def collideFoods : Animal → List Food → Rng → Animal × List Food × Rng
  | a, [], r => (a, [], r)
  | a, f :: fs, r =>
    if dist2 a.position f.position ≤ 1 / 10000 then
      let p := r.genPoint
      let rest := collideFoods { a with satiation := a.satiation + 1 } fs p.2
      (rest.1, ⟨p.1⟩ :: rest.2.1, rest.2.2)
    else
      let rest := collideFoods a fs r
      (rest.1, f :: rest.2.1, rest.2.2)

/-- `process_collisions` (simulation lib.rs:93-104): animals in collection order,
foods in collection order; food respawns are visible to later animals. -/
def processCollisions : List Animal → List Food → Rng → List Animal × List Food × Rng
  | [], fs, r => ([], fs, r)
  | a :: as_, fs, r =>
    let p := collideFoods a fs r
    let rest := processCollisions as_ p.2.1 p.2.2
    (p.1 :: rest.1, rest.2)

/-- One animal's update in `process_brains` (simulation lib.rs:76-91): vision,
propagate, clamp the two responses to the acceleration bounds, update speed (clamped
to `[SPEED_MIN, SPEED_MAX]` = [1/1000, 1/200]) and heading. -/
def brainStep (env : SimEnv) (foods : List Food) (a : Animal) : Animal :=
  let vision := env.processVision a.position a.rotation foods
  let response := env.propagate a.brain.chromosome vision
  let dspeed := clampQ response.1 (-(1/5)) (1/5)
  let drot := clampQ response.2 (-env.rotationAccel) env.rotationAccel
  { a with
    speed := clampQ (a.speed + dspeed) (1/1000) (1/200)
    rotation := env.rotate a.rotation drot }

/-- `process_brains` (simulation lib.rs:76-91). -/
def processBrains (env : SimEnv) (w : World) : World :=
  ⟨w.animals.map (brainStep env w.foods), w.foods⟩

/-- The `while val < min` loop of `na::wrap` (specialised to the call sites' bounds
min = 0, max = 1, width 1), with exactly enough fuel: for `q < 0` the loop body runs
`(-⌊q⌋)` times. -/
def wrapUpAux : Nat → ℚ → ℚ
  | 0, q => q
  | fuel + 1, q => if q < 0 then wrapUpAux fuel (q + 1) else q

def wrapUp (q : ℚ) : ℚ := wrapUpAux (Int.toNat (-⌊q⌋)) q

/-- The `while val > max` loop of `na::wrap` (same specialisation). -/
def wrapDownAux : Nat → ℚ → ℚ
  | 0, q => q
  | fuel + 1, q => if q > 1 then wrapDownAux fuel (q - 1) else q

def wrapDown (q : ℚ) : ℚ := wrapDownAux (Int.toNat ⌈q⌉) q

/-- `na::wrap(val, 0.0, 1.0)` as called by `process_movement`: if below the minimum,
add the width once and loop while still below; if above the maximum, subtract once and
loop while still above; otherwise return the value unchanged — a value equal to a
bound is returned as it is, so the result lies in the closed interval [0, 1]. -/
def naWrap (q : ℚ) : ℚ :=
  if q < 0 then wrapUp (q + 1) else if q > 1 then wrapDown (q - 1) else q

/-- One animal's update in `process_movement` (simulation lib.rs:67-74):
`position += rotation * Vector2::new(0.0, speed)` — the rotation matrix applied to
`(0, speed)` is `(-sin θ · speed, cos θ · speed)` — then wrap both coordinates. -/
def moveAnimal (a : Animal) : Animal :=
  { a with position :=
      (naWrap (a.position.1 + -(a.rotation.2) * a.speed),
       naWrap (a.position.2 + a.rotation.1 * a.speed)) }

/-- `process_movement` (simulation lib.rs:67-74). -/
def processMovement (w : World) : World :=
  ⟨w.animals.map moveAnimal, w.foods⟩

/-- Modelled from the spec (animal_individual.rs is not under src/):
`AnimalIndividual::from_animal` — the satiation counter as a float fitness, the
brain's weights as the chromosome (spec §4.6). -/
def AnimalIndividual.fromAnimal (a : Animal) : AnimalIndividual :=
  ⟨(a.satiation : ℚ), a.brain.chromosome⟩

/-- Modelled from the spec (animal.rs is not under src/): `Animal::new(eye, brain,
rng)` — the given brain with fresh random position/heading/speed and a fresh
satiation counter (spec §4.6, §9). -/
def Animal.new (env : SimEnv) (b : Brain) (r : Rng) : Animal × Rng :=
  let p := env.newPhysics r
  (⟨p.1.1, p.1.2.1, p.1.2.2, 0, b⟩, p.2)

/-- Modelled from the spec: `AnimalIndividual::into_animal` rebuilds an agent from the
chromosome with fresh random physics (spec §4.6). -/
def AnimalIndividual.intoAnimal (env : SimEnv) (ind : AnimalIndividual) (r : Rng) :
    Animal × Rng :=
  Animal.new env ⟨ind.chromosome⟩ r

/-- Modelled from the spec: `Animal::random(rng)` — a random chromosome plus fresh
random physics. -/
def Animal.random (env : SimEnv) (r : Rng) : Animal × Rng :=
  let c := env.randomChromosome r
  Animal.new env ⟨c.1⟩ c.2

/-- `evolved_population.into_iter().map(|i| into_animal(i, rng)).collect()`
(simulation lib.rs:118-121): sequential rng threading in list order. -/
def intoAnimals (env : SimEnv) : List AnimalIndividual → Rng → List Animal × Rng
  | [], r => ([], r)
  | i :: is_, r =>
    let p := AnimalIndividual.intoAnimal env i r
    let rest := intoAnimals env is_ p.2
    (p.1 :: rest.1, rest.2)

/-- `for food in foods { food.position = rng.gen(); }` (simulation lib.rs:123-125 and
154-156). -/
def repositionFoods : List Food → Rng → List Food × Rng
  | [], r => ([], r)
  | _ :: fs, r =>
    let p := r.genPoint
    let rest := repositionFoods fs p.2
    (⟨p.1⟩ :: rest.1, rest.2)

/-- `Simulation` (simulation lib.rs:23-27): the world, the genetic algorithm (the
fixed strategies are roulette-wheel selection and uniform crossover, so only the
Gaussian-mutation parameters vary), and the step counter `age`. -/
structure Simulation where
  world : World
  gaMutation : GaussianMutation
  age : Nat

/-- `Simulation::evolve` (simulation lib.rs:106-128): reset `age` to zero, snapshot
the animals as individuals, run the engine's population-plus-statistics evolve (the
contract this caller destructures), materialise the new animals with fresh physics,
reposition every food, and return the statistics.  A selection panic inside the
engine aborts the call (`none`). -/
def Simulation.evolve (env : SimEnv) (sim : Simulation) (r : Rng) :
    Option (Statistics × Simulation × Rng) :=
  let pop := sim.world.animals.map AnimalIndividual.fromAnimal
  match gaEvolveWithStats animalOps sim.gaMutation pop r with
  | none => none
  | some ((newPop, stats), r1) =>
    let as_ := intoAnimals env newPop r1
    let fs := repositionFoods sim.world.foods as_.2
    some (stats, ⟨⟨as_.1, fs.1⟩, sim.gaMutation, 0⟩, fs.2)

/-- The world half of `Simulation::step` (simulation lib.rs:47-49): collisions,
brains, movement, in that order; only collisions consume randomness. -/
def stepWorld (env : SimEnv) (w : World) (r : Rng) : World × Rng :=
  let col := processCollisions w.animals w.foods r
  (processMovement (processBrains env ⟨col.1, col.2.1⟩), col.2.2)

/-- `Simulation::step` (simulation lib.rs:46-57): run the pipeline, increment `age`,
and fire evolve exactly when `age > GENERATION_LENGTH`; `none` is the panic case. -/
def Simulation.step (env : SimEnv) (sim : Simulation) (r : Rng) :
    Option (Option Statistics × Simulation × Rng) :=
  let wr := stepWorld env sim.world r
  let sim1 : Simulation := ⟨wr.1, sim.gaMutation, sim.age + 1⟩
  if sim1.age > GENERATION_LENGTH then
    match Simulation.evolve env sim1 wr.2 with
    | none => none
    | some (stats, sim2, r2) => some (some stats, sim2, r2)
  else
    some (none, sim1, wr.2)

/-- `k` consecutive calls of `Simulation::step`, collecting each step's optional
statistics. -/
def runSteps (env : SimEnv) : Nat → Simulation → Rng →
    Option (List (Option Statistics) × Simulation × Rng)
  | 0, sim, r => some ([], sim, r)
  | n + 1, sim, r =>
    match Simulation.step env sim r with
    | none => none
    | some (o, sim1, r1) =>
      match runSteps env n sim1 r1 with
      | none => none
      | some (outs, sim2, r2) => some (o :: outs, sim2, r2)

/-- The scan of `choose_best` (simulation lib.rs:136-141): keep the chromosome of the
first animal whose satiation strictly exceeds the running best (initially 0). -/
def topScan : List Animal → Chromosome → Nat → Chromosome × Nat
  | [], c, s => (c, s)
  | a :: as_, c, s =>
    if a.satiation > s then topScan as_ a.brain.chromosome a.satiation
    else topScan as_ c s

/-- The build loop of `choose_best` (simulation lib.rs:143-150): `n` fresh animals all
carrying the same chromosome, each with fresh random physics. -/
def buildBest (env : SimEnv) (c : Chromosome) : Nat → Rng → List Animal × Rng
  | 0, r => ([], r)
  | n + 1, r =>
    let p := Animal.new env ⟨c⟩ r
    let rest := buildBest env c n p.2
    (p.1 :: rest.1, rest.2)

/-- `Simulation::choose_best` (simulation lib.rs:130-157): asserts more than one
animal (embedded as `none`), seeds the best chromosome from a fresh random animal,
scans for the highest satiation, replaces the population with exactly 40 new agents
carrying that chromosome, and repositions every food. -/
def Simulation.chooseBest (env : SimEnv) (sim : Simulation) (r : Rng) :
    Option (Simulation × Rng) :=
  if sim.world.animals.length > 1 then
    let ra := Animal.random env r
    let top := topScan sim.world.animals ra.1.brain.chromosome 0
    let nb := buildBest env top.1 40 ra.2
    let fs := repositionFoods sim.world.foods nb.2
    some (⟨⟨nb.1, fs.1⟩, sim.gaMutation, sim.age⟩, fs.2)
  else none

/-- Per-step relation between an animal and its updated self: the brain is untouched
and the satiation counter never decreases. -/
def AnimalSim (a b : Animal) : Prop := b.brain = a.brain ∧ a.satiation ≤ b.satiation

/-- A trivial concrete environment for witnesses and counterexamples. -/
def envTriv : SimEnv :=
  ⟨fun _ _ _ => [], fun _ _ => (0, 0), fun rot _ => rot, 0,
   fun r => (((0, 0), (0, 0), 1/1000), r), fun r => (⟨[0]⟩, r)⟩

/-- A concrete animal at the origin with zero heading vector, minimum speed, zero
satiation and a one-gene chromosome: a fixpoint of the step pipeline under `envTriv`. -/
def animC : Animal := ⟨(0, 0), (0, 0), 1/1000, 0, ⟨⟨[0]⟩⟩⟩

/-- The same animal with satiation 1. -/
def animC1 : Animal := ⟨(0, 0), (0, 0), 1/1000, 1, ⟨⟨[0]⟩⟩⟩

/-- Two zero-satiation animals and no food: the degenerate world of the C3
counterexample. -/
def worldC : World := ⟨[animC, animC], []⟩

/-- The C3-counterexample simulation at step counter `k`. -/
def simAt (k : Nat) : Simulation := ⟨worldC, gmC, k⟩

/-- The animal whose movement lands exactly on x = 1: heading vector (0, -1) and
speed 1/2 from position (1/2, 1/2). -/
def animC8 : Animal := ⟨(1/2, 1/2), (0, -1), 1/2, 0, ⟨⟨[0]⟩⟩⟩

def worldC8 : World := ⟨[animC8], []⟩

/-- A concrete two-animal, one-food simulation for the C9 witness. -/
def simC9 : Simulation := ⟨⟨[animC, animC1], [⟨(1/2, 1/2)⟩]⟩, gmC, 0⟩

/-- A concrete two-animal simulation with positive satiation for the C3 witness. -/
def simW3 : Simulation := ⟨⟨[animC1, animC], []⟩, gmC, 0⟩

/-- Draw cursor after the per-gene mutation consumption stated by the spec (§4.5): per
gene one sign draw at position `d` and one chance draw at position `d + 1`, plus one
magnitude draw iff the chance draw triggers. -/
def specMutEnd (chance : ℚ) (s : Nat → ℚ) : Nat → Nat → Nat
  | 0, d => d
  | len + 1, d =>
    specMutEnd chance s len (if fract (s (d + 1)) < chance then d + 3 else d + 2)

/-- Draw cursor after one offspring per the spec's consumption-order sentence: one
parent-a selection draw, one parent-b selection draw, one coin flip per gene, then the
per-gene mutation draws. -/
def specOffEnd (chance : ℚ) (s : Nat → ℚ) (len d : Nat) : Nat :=
  specMutEnd chance s len (d + 2 + len)

/-- Draw cursor after `n` offspring in index order, per the spec's consumption-order
sentence (§4.5). -/
def specEvolveEnd (chance : ℚ) (s : Nat → ℚ) (len : Nat) : Nat → Nat → Nat
  | 0, d => d
  | n + 1, d => specEvolveEnd chance s len n (specOffEnd chance s len d)

----------------------------------------------------------------------------------
-- Lemmas
----------------------------------------------------------------------------------

lemma fract_nonneg0 (q : ℚ) : 0 ≤ fract q := by
  have h := Int.floor_le q
  unfold fract
  linarith

lemma fract_lt_one0 (q : ℚ) : fract q < 1 := by
  have h := Int.lt_floor_add_one q
  unfold fract
  linarith

lemma genBool_zero (r : Rng) : r.genBool 0 = (false, ⟨r.stream, r.idx + 1⟩) := by
  show (decide (fract (r.stream r.idx) < (0 : ℚ)), (⟨r.stream, r.idx + 1⟩ : Rng)) = _
  rw [decide_eq_false (not_lt.mpr (fract_nonneg0 _))]

lemma mutateGenes_chance_zero (coeff : ℚ) (gs : List ℚ) (r : Rng) :
    (mutateGenes ⟨0, coeff⟩ gs r).1 = gs := by
  induction gs generalizing r with
  | nil => rfl
  | cons g gs ih =>
    simp only [mutateGenes, genBool_zero]
    simp [ih]

lemma mutateGenes_coeff_zero (chance : ℚ) (gs : List ℚ) (r : Rng) :
    (mutateGenes ⟨chance, 0⟩ gs r).1 = gs := by
  induction gs generalizing r with
  | nil => rfl
  | cons g gs ih =>
    simp only [mutateGenes]
    split <;> simp [ih]

lemma mutateGenes_length (m : GaussianMutation) (gs : List ℚ) (r : Rng) :
    (mutateGenes m gs r).1.length = gs.length := by
  induction gs generalizing r with
  | nil => rfl
  | cons g gs ih =>
    simp only [mutateGenes]
    split <;> simp [ih]

lemma crossoverGenes_length (xs ys : List ℚ) (r : Rng) :
    (crossoverGenes xs ys r).1.length = min xs.length ys.length := by
  induction xs generalizing ys r with
  | nil => cases ys <;> rfl
  | cons a xs ih =>
    cases ys with
    | nil => rfl
    | cons b ys => simp [crossoverGenes, ih, Nat.succ_min_succ]

lemma evolveLoop_length {I : Type} (ops : IndividualOps I) (gm : GaussianMutation)
    (pop : List I) (n : Nat) (r : Rng) (out : List I) (rf : Rng)
    (h : evolveLoop ops gm pop n r = some (out, rf)) : out.length = n := by
  induction n generalizing r out rf with
  | zero =>
    simp only [evolveLoop] at h
    cases h
    rfl
  | succ n ih =>
    simp only [evolveLoop] at h
    split at h
    · cases h
    · split at h
      · cases h
      · split at h
        · cases h
        · split at h
          · cases h
          · rename_i rest r4 hrec
            simp only [Option.some.injEq, Prod.mk.injEq] at h
            obtain ⟨h5, -⟩ := h
            rw [← h5]
            simp [ih _ _ _ hrec]

lemma getD_mem_cons {α : Type} (p : α) (ps : List α) (i : Nat) :
    (p :: ps).getD i p ∈ p :: ps := by
  rw [List.getD_eq_getD_get?]
  cases h : (p :: ps).get? i with
  | none => simp [h]
  | some x =>
    have hx : x ∈ p :: ps := List.get?_mem h
    simp [h, hx]

lemma wiLoop_all_nonneg (ws : List ℚ) :
    ∀ t acc, (∀ w ∈ ws, 0 ≤ w) →
      ∃ cum, wiLoop t acc ws = .ok (cum, t + ws.sum) := by
  induction ws with
  | nil => intro t acc _; exact ⟨acc.reverse, by simp [wiLoop]⟩
  | cons w ws ih =>
    intro t acc hw
    have hw0 : 0 ≤ w := hw w (by simp)
    have hrest : ∀ x ∈ ws, 0 ≤ x := fun x hx => hw x (by simp [hx])
    obtain ⟨cum, hc⟩ := ih (t + w) (t :: acc) hrest
    refine ⟨cum, ?_⟩
    simp only [wiLoop, if_neg (not_lt.mpr hw0), hc, List.sum_cons]
    ring_nf

lemma wiLoop_neg (ws : List ℚ) :
    ∀ t acc, (∃ w ∈ ws, w < 0) → wiLoop t acc ws = .error .invalidWeight := by
  induction ws with
  | nil => intro t acc h; obtain ⟨w, hw, -⟩ := h; cases hw
  | cons w ws ih =>
    intro t acc h
    by_cases hw : w < 0
    · simp [wiLoop, hw]
    · obtain ⟨x, hx, hxneg⟩ := h
      have hxs : x ∈ ws := by
        cases hx with
        | head => exact absurd hxneg hw
        | tail _ h => exact h
      simp [wiLoop, hw, ih _ _ ⟨x, hxs, hxneg⟩]

lemma weightedIndexNew_pos (ws : List ℚ) (hne : ws ≠ [])
    (hnn : ∀ w ∈ ws, 0 ≤ w) (hpos : 0 < ws.sum) :
    ∃ cum, weightedIndexNew ws = .ok (cum, ws.sum) := by
  cases ws with
  | nil => exact absurd rfl hne
  | cons w0 rest =>
    have hw0 : 0 ≤ w0 := hnn w0 (by simp)
    have hrest : ∀ w ∈ rest, 0 ≤ w := fun w hw => hnn w (by simp [hw])
    obtain ⟨cum, hc⟩ := wiLoop_all_nonneg rest w0 [] hrest
    refine ⟨cum, ?_⟩
    have hsum : w0 + rest.sum = (w0 :: rest).sum := by simp
    simp only [weightedIndexNew, if_neg (not_lt.mpr hw0), hc, hsum]
    rw [if_neg (ne_of_gt hpos)]

lemma weightedIndexNew_neg (ws : List ℚ) (h : ∃ w ∈ ws, w < 0) :
    weightedIndexNew ws = .error .invalidWeight := by
  cases ws with
  | nil => obtain ⟨w, hw, -⟩ := h; cases hw
  | cons w0 rest =>
    by_cases hw0 : w0 < 0
    · simp [weightedIndexNew, hw0]
    · obtain ⟨x, hx, hxneg⟩ := h
      have hxs : x ∈ rest := by
        cases hx with
        | head => exact absurd hxneg hw0
        | tail _ h => exact h
      simp [weightedIndexNew, hw0, wiLoop_neg rest w0 [] ⟨x, hxs, hxneg⟩]

lemma weightedIndexNew_zero (ws : List ℚ) (hne : ws ≠ [])
    (hnn : ∀ w ∈ ws, 0 ≤ w) (hzero : ws.sum = 0) :
    weightedIndexNew ws = .error .allWeightsZero := by
  cases ws with
  | nil => exact absurd rfl hne
  | cons w0 rest =>
    have hw0 : 0 ≤ w0 := hnn w0 (by simp)
    have hrest : ∀ w ∈ rest, 0 ≤ w := fun w hw => hnn w (by simp [hw])
    obtain ⟨cum, hc⟩ := wiLoop_all_nonneg rest w0 [] hrest
    have hsum : w0 + rest.sum = 0 := by simpa using hzero
    simp [weightedIndexNew, if_neg (not_lt.mpr hw0), hc, hsum]

lemma chooseWeighted_ok {I : Type} (fit : I → ℚ) (pop : List I) (r : Rng)
    (hnn : ∀ x ∈ pop, 0 ≤ fit x) (hpos : 0 < (pop.map fit).sum) :
    ∃ x, chooseWeighted fit pop r = .ok (x, (r.next).2) ∧ x ∈ pop := by
  have hne : pop.map fit ≠ [] := by
    intro h
    rw [h] at hpos
    simp at hpos
  have hnn' : ∀ w ∈ pop.map fit, 0 ≤ w := by
    intro w hw
    obtain ⟨x, hx, rfl⟩ := List.mem_map.mp hw
    exact hnn x hx
  obtain ⟨cum, hc⟩ := weightedIndexNew_pos (pop.map fit) hne hnn' hpos
  cases pop with
  | nil => simp at hne
  | cons p ps =>
    unfold chooseWeighted
    rw [hc]
    exact ⟨_, rfl, getD_mem_cons _ _ _⟩

lemma chooseWeighted_ok_inv {I : Type} (fit : I → ℚ) (pop : List I) (r : Rng)
    (x : I) (r1 : Rng) (h : chooseWeighted fit pop r = .ok (x, r1)) :
    x ∈ pop ∧ r1 = (r.next).2 := by
  unfold chooseWeighted at h
  cases hw : weightedIndexNew (pop.map fit) with
  | error e => rw [hw] at h; cases h
  | ok v =>
    rw [hw] at h
    obtain ⟨cum, total⟩ := v
    cases pop with
    | nil => cases h
    | cons p ps =>
      simp only [Except.ok.injEq, Prod.mk.injEq] at h
      obtain ⟨h1, h2⟩ := h
      exact ⟨h1 ▸ getD_mem_cons _ _ _, h2.symm⟩

lemma agree_next {r r' : Rng} (h : Rng.Agree r r') :
    (r.next).1 = (r'.next).1 ∧ Rng.Agree (r.next).2 (r'.next).2 := by
  obtain ⟨hidx, hs⟩ := h
  refine ⟨?_, ?_, ?_⟩
  · show fract (r.stream r.idx) = fract (r'.stream r'.idx)
    rw [← hidx, hs r.idx le_rfl]
  · show r.idx + 1 = r'.idx + 1
    omega
  · intro j hj
    have hj' : r.idx + 1 ≤ j := hj
    exact hs j (by omega)

lemma agree_genBool {r r' : Rng} (p : ℚ) (h : Rng.Agree r r') :
    (r.genBool p).1 = (r'.genBool p).1 ∧ Rng.Agree (r.genBool p).2 (r'.genBool p).2 := by
  obtain ⟨hv, ha⟩ := agree_next h
  refine ⟨?_, ha⟩
  show decide ((r.next).1 < p) = decide ((r'.next).1 < p)
  rw [hv]

lemma chooseWeighted_error_any {I : Type} (fit : I → ℚ) (pop : List I) (r r' : Rng)
    (e : WeightedError) (h : chooseWeighted fit pop r = .error e) :
    chooseWeighted fit pop r' = .error e := by
  unfold chooseWeighted at h ⊢
  cases hw : weightedIndexNew (pop.map fit) with
  | error e1 =>
    rw [hw] at h
    exact h
  | ok v =>
    rw [hw] at h
    obtain ⟨cum, total⟩ := v
    cases pop with
    | nil => exact h
    | cons p ps => simp at h

lemma agree_chooseWeighted_ok {I : Type} (fit : I → ℚ) (pop : List I) {r r' : Rng}
    (h : Rng.Agree r r') (x : I) (r1 : Rng)
    (hok : chooseWeighted fit pop r = .ok (x, r1)) :
    ∃ r1', chooseWeighted fit pop r' = .ok (x, r1') ∧ Rng.Agree r1 r1' := by
  obtain ⟨hv, ha⟩ := agree_next h
  unfold chooseWeighted at hok ⊢
  cases hw : weightedIndexNew (pop.map fit) with
  | error e =>
    rw [hw] at hok
    simp at hok
  | ok v =>
    rw [hw] at hok
    obtain ⟨cum, total⟩ := v
    cases pop with
    | nil => simp at hok
    | cons p ps =>
      simp only [Except.ok.injEq, Prod.mk.injEq] at hok
      obtain ⟨hx, hr1⟩ := hok
      refine ⟨(r'.next).2, ?_, ?_⟩
      · show Except.ok ((p :: ps).getD
            ((cum.takeWhile (fun w => decide (w ≤ (r'.next).1 * total))).length) p,
            (r'.next).2) = Except.ok (x, (r'.next).2)
        rw [← hv, hx]
      · rw [← hr1]; exact ha

lemma agree_crossoverGenes (xs : List ℚ) : ∀ (ys : List ℚ) {r r' : Rng},
    Rng.Agree r r' →
    (crossoverGenes xs ys r).1 = (crossoverGenes xs ys r').1 ∧
      Rng.Agree (crossoverGenes xs ys r).2 (crossoverGenes xs ys r').2 := by
  induction xs with
  | nil => intro ys r r' h; cases ys <;> exact ⟨rfl, h⟩
  | cons a xs ih =>
    intro ys r r' h
    cases ys with
    | nil => exact ⟨rfl, h⟩
    | cons b ys =>
      obtain ⟨hs1, ha1⟩ := agree_genBool (1/2) h
      obtain ⟨hv, ha⟩ := ih ys ha1
      constructor
      · show (if (r.genBool (1/2)).1 then a else b) :: (crossoverGenes xs ys (r.genBool (1/2)).2).1
            = (if (r'.genBool (1/2)).1 then a else b) :: (crossoverGenes xs ys (r'.genBool (1/2)).2).1
        rw [hs1, hv]
      · exact ha

lemma agree_mutateGenes (m : GaussianMutation) (gs : List ℚ) : ∀ {r r' : Rng},
    Rng.Agree r r' →
    (mutateGenes m gs r).1 = (mutateGenes m gs r').1 ∧
      Rng.Agree (mutateGenes m gs r).2 (mutateGenes m gs r').2 := by
  induction gs with
  | nil => intro r r' h; exact ⟨rfl, h⟩
  | cons g gs ih =>
    intro r r' h
    obtain ⟨hs1, ha1⟩ := agree_genBool (1/2) h
    obtain ⟨hs2, ha2⟩ := agree_genBool m.chance ha1
    obtain ⟨hu, hau⟩ := agree_next ha2
    have hupd :
        (if ((r.genBool (1/2)).2.genBool m.chance).1 then
            (g + (if (r.genBool (1/2)).1 then (-1 : ℚ) else 1) * m.coeff *
              (((r.genBool (1/2)).2.genBool m.chance).2.next).1,
              (((r.genBool (1/2)).2.genBool m.chance).2.next).2)
          else (g, ((r.genBool (1/2)).2.genBool m.chance).2)).1 =
        (if ((r'.genBool (1/2)).2.genBool m.chance).1 then
            (g + (if (r'.genBool (1/2)).1 then (-1 : ℚ) else 1) * m.coeff *
              (((r'.genBool (1/2)).2.genBool m.chance).2.next).1,
              (((r'.genBool (1/2)).2.genBool m.chance).2.next).2)
          else (g, ((r'.genBool (1/2)).2.genBool m.chance).2)).1 := by
      rw [← hs1, ← hs2, ← hu]
      cases hx : ((r.genBool (1/2)).2.genBool m.chance).1 <;> simp [hx]
    have haupd :
        Rng.Agree
          (if ((r.genBool (1/2)).2.genBool m.chance).1 then
              (g + (if (r.genBool (1/2)).1 then (-1 : ℚ) else 1) * m.coeff *
                (((r.genBool (1/2)).2.genBool m.chance).2.next).1,
                (((r.genBool (1/2)).2.genBool m.chance).2.next).2)
            else (g, ((r.genBool (1/2)).2.genBool m.chance).2)).2
          (if ((r'.genBool (1/2)).2.genBool m.chance).1 then
              (g + (if (r'.genBool (1/2)).1 then (-1 : ℚ) else 1) * m.coeff *
                (((r'.genBool (1/2)).2.genBool m.chance).2.next).1,
                (((r'.genBool (1/2)).2.genBool m.chance).2.next).2)
            else (g, ((r'.genBool (1/2)).2.genBool m.chance).2)).2 := by
      rw [← hs2]
      cases hx : ((r.genBool (1/2)).2.genBool m.chance).1 with
      | false => exact ha2
      | true => exact hau
    obtain ⟨hrest, harest⟩ := ih haupd
    constructor
    · show _ :: _ = _ :: _
      rw [hupd, hrest]
    · exact harest

lemma uniformCrossover_inv (r : Rng) (pa pb : Chromosome) (c : Chromosome) (r1 : Rng)
    (h : uniformCrossover r pa pb = some (c, r1)) :
    pa.genes.length = pb.genes.length ∧
    c = ⟨(crossoverGenes pa.genes pb.genes r).1⟩ ∧
    r1 = (crossoverGenes pa.genes pb.genes r).2 := by
  unfold uniformCrossover at h
  by_cases hl : pa.genes.length = pb.genes.length
  · rw [if_pos hl] at h
    simp only [Option.some.injEq, Prod.mk.injEq] at h
    exact ⟨hl, h.1.symm, h.2.symm⟩
  · rw [if_neg hl] at h
    cases h

lemma agree_uniformCrossover (pa pb : Chromosome) {r r' : Rng} (h : Rng.Agree r r') :
    (uniformCrossover r pa pb = none → uniformCrossover r' pa pb = none) ∧
    (∀ c r1, uniformCrossover r pa pb = some (c, r1) →
      ∃ r1', uniformCrossover r' pa pb = some (c, r1') ∧ Rng.Agree r1 r1') := by
  unfold uniformCrossover
  by_cases hl : pa.genes.length = pb.genes.length
  · rw [if_pos hl, if_pos hl]
    obtain ⟨hv, ha⟩ := agree_crossoverGenes pa.genes pb.genes h
    constructor
    · intro hx; simp at hx
    · intro c r1 hx
      simp only [Option.some.injEq, Prod.mk.injEq] at hx
      obtain ⟨hc, hr1⟩ := hx
      refine ⟨(crossoverGenes pa.genes pb.genes r').2, ?_, ?_⟩
      · simp only [Option.some.injEq, Prod.mk.injEq]
        exact ⟨by rw [← hc, hv], trivial⟩
      · rw [← hr1]; exact ha
  · rw [if_neg hl, if_neg hl]
    exact ⟨fun _ => rfl, fun c r1 hx => by cases hx⟩

lemma agree_evolveLoop {I : Type} (ops : IndividualOps I) (gm : GaussianMutation)
    (pop : List I) : ∀ (n : Nat) {r r' : Rng}, Rng.Agree r r' →
    (evolveLoop ops gm pop n r = none → evolveLoop ops gm pop n r' = none) ∧
    (∀ o rf, evolveLoop ops gm pop n r = some (o, rf) →
      ∃ rf', evolveLoop ops gm pop n r' = some (o, rf') ∧ Rng.Agree rf rf') := by
  intro n
  induction n with
  | zero =>
    intro r r' h
    constructor
    · intro hx; simp [evolveLoop] at hx
    · intro o rf hx
      simp only [evolveLoop, Option.some.injEq, Prod.mk.injEq] at hx
      obtain ⟨ho, hrf⟩ := hx
      exact ⟨r', by simp [evolveLoop, ho], by rw [← hrf]; exact h⟩
  | succ n ih =>
    intro r r' h
    simp only [evolveLoop]
    cases hA : rouletteSelect ops.fitness pop r with
    | error e =>
      have hA' : rouletteSelect ops.fitness pop r' = .error e :=
        chooseWeighted_error_any ops.fitness pop r r' e hA
      rw [hA']
      exact ⟨fun _ => rfl, fun o rf hx => by cases hx⟩
    | ok v =>
      obtain ⟨pa, r1⟩ := v
      obtain ⟨r1', hA', ha1⟩ := agree_chooseWeighted_ok ops.fitness pop h pa r1 hA
      have hA2 : rouletteSelect ops.fitness pop r' = .ok (pa, r1') := hA'
      rw [hA2]
      simp only []
      cases hB : rouletteSelect ops.fitness pop r1 with
      | error e =>
        have hB' : rouletteSelect ops.fitness pop r1' = .error e :=
          chooseWeighted_error_any ops.fitness pop r1 r1' e hB
        rw [hB']
        exact ⟨fun _ => rfl, fun o rf hx => by cases hx⟩
      | ok w =>
        obtain ⟨pb, r2⟩ := w
        obtain ⟨r2', hB', ha2⟩ := agree_chooseWeighted_ok ops.fitness pop ha1 pb r2 hB
        have hB2 : rouletteSelect ops.fitness pop r1' = .ok (pb, r2') := hB'
        rw [hB2]
        simp only []
        cases hC : uniformCrossover r2 (ops.chromosome pa) (ops.chromosome pb) with
        | none =>
          have hC' := (agree_uniformCrossover _ _ ha2).1 hC
          rw [hC']
          exact ⟨fun _ => rfl, fun o rf hx => by cases hx⟩
        | some w2 =>
          obtain ⟨child, r3⟩ := w2
          obtain ⟨r3', hC', ha3⟩ := (agree_uniformCrossover _ _ ha2).2 child r3 hC
          rw [hC']
          simp only []
          obtain ⟨hmv, ham⟩ := agree_mutateGenes gm child.genes ha3
          have hcreate : (gaussianMutate gm r3' child).1 = (gaussianMutate gm r3 child).1 := by
            show Chromosome.mk (mutateGenes gm child.genes r3').1
                = Chromosome.mk (mutateGenes gm child.genes r3).1
            rw [hmv]
          constructor
          · intro hx
            cases hr : evolveLoop ops gm pop n (gaussianMutate gm r3 child).2 with
            | some w3 =>
              rw [hr] at hx
              obtain ⟨rest, r4⟩ := w3
              cases hx
            | none =>
              have hn2 : evolveLoop ops gm pop n (gaussianMutate gm r3' child).2 = none :=
                (ih ham).1 hr
              rw [hn2]
          · intro o rf hx
            cases hr : evolveLoop ops gm pop n (gaussianMutate gm r3 child).2 with
            | none =>
              rw [hr] at hx
              cases hx
            | some w3 =>
              obtain ⟨rest, r4⟩ := w3
              rw [hr] at hx
              simp only [Option.some.injEq, Prod.mk.injEq] at hx
              obtain ⟨ho, hrf⟩ := hx
              obtain ⟨rf', hr', ha4⟩ := (ih ham).2 rest r4 hr
              have hr2 : evolveLoop ops gm pop n (gaussianMutate gm r3' child).2
                  = some (rest, rf') := hr'
              rw [hr2]
              refine ⟨rf', ?_, ?_⟩
              · simp only [Option.some.injEq, Prod.mk.injEq]
                exact ⟨by rw [← ho, hcreate], trivial⟩
              · rw [← hrf]; exact ha4

lemma mutateGenes_cons (m : GaussianMutation) (g : ℚ) (gs : List ℚ) (r : Rng) :
    mutateGenes m (g :: gs) r =
      (let upd : ℚ × Rng :=
        if decide (fract (r.stream (r.idx + 1)) < m.chance) then
          (g + (if decide (fract (r.stream r.idx) < 1/2) then (-1 : ℚ) else 1) * m.coeff
            * fract (r.stream (r.idx + 2)), ⟨r.stream, r.idx + 3⟩)
        else (g, ⟨r.stream, r.idx + 2⟩)
       let rest := mutateGenes m gs upd.2
       (upd.1 :: rest.1, rest.2)) := rfl

lemma crossoverGenes_rng (xs : List ℚ) : ∀ (ys : List ℚ) (s : Nat → ℚ) (i : Nat),
    (crossoverGenes xs ys ⟨s, i⟩).2 = ⟨s, i + min xs.length ys.length⟩ := by
  induction xs with
  | nil =>
    intro ys s i
    cases ys <;> simp [crossoverGenes]
  | cons a xs ih =>
    intro ys s i
    cases ys with
    | nil => simp [crossoverGenes]
    | cons b ys =>
      show (crossoverGenes xs ys ⟨s, i + 1⟩).2 = _
      rw [ih ys s (i + 1)]
      have harith : (i + 1) + min xs.length ys.length
          = i + min (xs.length + 1) (ys.length + 1) := by omega
      rw [harith]
      rfl

lemma mutateGenes_rng (m : GaussianMutation) (gs : List ℚ) : ∀ (s : Nat → ℚ) (i : Nat),
    (mutateGenes m gs ⟨s, i⟩).2 = ⟨s, specMutEnd m.chance s gs.length i⟩ := by
  induction gs with
  | nil =>
    intro s i
    rfl
  | cons g gs ih =>
    intro s i
    rw [mutateGenes_cons]
    show (mutateGenes m gs
        (if decide (fract (s (i + 1)) < m.chance) then
          ((g + (if decide (fract (s i) < 1/2) then (-1 : ℚ) else 1) * m.coeff
            * fract (s (i + 2)), (⟨s, i + 3⟩ : Rng)) : ℚ × Rng)
        else (g, ⟨s, i + 2⟩)).2).2 = _
    by_cases hit : fract (s (i + 1)) < m.chance
    · rw [decide_eq_true hit]
      show (mutateGenes m gs ⟨s, i + 3⟩).2
          = (⟨s, specMutEnd m.chance s (gs.length + 1) i⟩ : Rng)
      rw [ih s (i + 3), specMutEnd, if_pos hit]
    · rw [decide_eq_false hit]
      show (mutateGenes m gs ⟨s, i + 2⟩).2
          = (⟨s, specMutEnd m.chance s (gs.length + 1) i⟩ : Rng)
      rw [ih s (i + 2), specMutEnd, if_neg hit]

lemma evolveLoop_rng {I : Type} (ops : IndividualOps I) (gm : GaussianMutation)
    (pop : List I) (L : Nat) (hL : ∀ x ∈ pop, (ops.chromosome x).genes.length = L) :
    ∀ (n : Nat) (s : Nat → ℚ) (i : Nat) (o : List I) (rf : Rng),
      evolveLoop ops gm pop n ⟨s, i⟩ = some (o, rf) →
      rf = ⟨s, specEvolveEnd gm.chance s L n i⟩ := by
  intro n
  induction n with
  | zero =>
    intro s i o rf h
    simp only [evolveLoop, Option.some.injEq, Prod.mk.injEq] at h
    rw [← h.2, specEvolveEnd]
  | succ n ih =>
    intro s i o rf h
    simp only [evolveLoop] at h
    split at h
    · cases h
    · rename_i pa r1 hA
      split at h
      · cases h
      · rename_i pb r2 hB
        split at h
        · cases h
        · rename_i child r3 hC
          split at h
          · cases h
          · rename_i rest r4 hrec
            simp only [Option.some.injEq, Prod.mk.injEq] at h
            obtain ⟨-, hrf⟩ := h
            obtain ⟨hpaMem, hr1⟩ := chooseWeighted_ok_inv ops.fitness pop _ pa r1 hA
            have hr1' : r1 = (⟨s, i + 1⟩ : Rng) := hr1
            subst hr1'
            obtain ⟨hpbMem, hr2⟩ := chooseWeighted_ok_inv ops.fitness pop _ pb r2 hB
            have hr2' : r2 = (⟨s, i + 2⟩ : Rng) := hr2
            subst hr2'
            obtain ⟨hlen, hchild, hr3⟩ := uniformCrossover_inv _ _ _ child r3 hC
            have hLa : (ops.chromosome pa).genes.length = L := hL pa hpaMem
            have hLb : (ops.chromosome pb).genes.length = L := hL pb hpbMem
            have hr3' : r3 = (⟨s, i + 2 + L⟩ : Rng) := by
              rw [hr3, crossoverGenes_rng _ _ s (i + 2), hLa, hLb, Nat.min_self]
            subst hr3'
            have hclen : child.genes.length = L := by
              rw [hchild]
              show (crossoverGenes (ops.chromosome pa).genes (ops.chromosome pb).genes
                (⟨s, i + 2⟩ : Rng)).1.length = L
              rw [crossoverGenes_length, hLa, hLb, Nat.min_self]
            have hmut : (gaussianMutate gm (⟨s, i + 2 + L⟩ : Rng) child).2
                = (⟨s, specMutEnd gm.chance s L (i + 2 + L)⟩ : Rng) := by
              show (mutateGenes gm child.genes (⟨s, i + 2 + L⟩ : Rng)).2 = _
              rw [mutateGenes_rng, hclen]
            rw [hmut] at hrec
            have hr4 := ih s (specMutEnd gm.chance s L (i + 2 + L)) rest r4 hrec
            rw [← hrf, hr4]
            rfl

----------------------------------------------------------------------------------
-- Claim theorems: mutation and construction (C6, C7, C10)
----------------------------------------------------------------------------------

/-- Claim C6: Gaussian mutation constructed with chance 0 (construction succeeds, with
any coefficient) leaves every gene of any genome exactly unchanged, for every random
source state. -/
theorem c6_chance_zero_idempotent (coeff : ℚ) (c : Chromosome) (r : Rng) :
    GaussianMutation.new 0 coeff = some ⟨0, coeff⟩ ∧
    (gaussianMutate ⟨0, coeff⟩ r c).1 = c := by
  constructor
  · simp [GaussianMutation.new]
  · cases c with
    | mk genes =>
      simp [gaussianMutate, mutateGenes_chance_zero]

/-- Claim C7: Gaussian mutation constructed with coefficient 0 (construction succeeds
for any chance in [0,1]) leaves every gene of any genome exactly unchanged, for every
random source state — including when the perturbation triggers and the zero-magnitude
addition is actually performed. -/
theorem c7_coeff_zero_idempotent (chance : ℚ) (c : Chromosome) (r : Rng)
    (h0 : 0 ≤ chance) (h1 : chance ≤ 1) :
    GaussianMutation.new chance 0 = some ⟨chance, 0⟩ ∧
    (gaussianMutate ⟨chance, 0⟩ r c).1 = c := by
  constructor
  · simp [GaussianMutation.new, h0, h1]
  · cases c with
    | mk genes =>
      simp [gaussianMutate, mutateGenes_coeff_zero]

/-- Witness for C7, at chance 1 (every gene's perturbation triggers on the all-zero
stream) and a concrete genome. -/
theorem c7_witness :
    (0 : ℚ) ≤ 1 ∧ (1 : ℚ) ≤ 1 ∧
    (GaussianMutation.new 1 0 = some ⟨1, 0⟩ ∧
      (gaussianMutate ⟨1, 0⟩ rng0 ⟨[5, 7]⟩).1 = ⟨[5, 7]⟩) :=
  ⟨by norm_num, le_refl 1,
    c7_coeff_zero_idempotent 1 ⟨[5, 7]⟩ rng0 (by norm_num) (le_refl 1)⟩

lemma wrapUpAux_bounds (fuel : Nat) : ∀ q : ℚ, -⌊q⌋ ≤ (fuel : Int) →
    0 ≤ wrapUpAux fuel q ∧ (q < 1 → wrapUpAux fuel q < 1) := by
  induction fuel with
  | zero =>
    intro q hf
    have h0 : (0 : Int) ≤ ⌊q⌋ := by
      have : -⌊q⌋ ≤ ((0 : Nat) : Int) := hf
      omega
    have hq0 : (0 : ℚ) ≤ q := by
      have hle := Int.floor_le q
      have hcast : (0 : ℚ) ≤ (⌊q⌋ : ℚ) := by exact_mod_cast h0
      linarith
    exact ⟨hq0, fun h1 => h1⟩
  | succ fuel ih =>
    intro q hf
    by_cases hq : q < 0
    · have hfloor : ⌊q + 1⌋ = ⌊q⌋ + 1 := Int.floor_add_one q
      have hrec := ih (q + 1) (by rw [hfloor]; push_cast at hf ⊢; omega)
      constructor
      · simpa [wrapUpAux, hq] using hrec.1
      · intro _
        simpa [wrapUpAux, hq] using hrec.2 (by linarith)
    · constructor
      · simpa [wrapUpAux, hq] using not_lt.mp hq
      · intro h1
        simpa [wrapUpAux, hq] using h1

lemma wrapUp_bounds (q : ℚ) : 0 ≤ wrapUp q ∧ (q < 1 → wrapUp q < 1) := by
  apply wrapUpAux_bounds
  exact Int.self_le_toNat _

lemma wrapDownAux_bounds (fuel : Nat) : ∀ q : ℚ, ⌈q⌉ - 1 ≤ (fuel : Int) →
    wrapDownAux fuel q ≤ 1 ∧ (0 < q → 0 < wrapDownAux fuel q) := by
  induction fuel with
  | zero =>
    intro q hf
    have h1 : ⌈q⌉ ≤ 1 := by
      have : ⌈q⌉ - 1 ≤ ((0 : Nat) : Int) := hf
      omega
    have hq1 : q ≤ 1 := by
      have hle := Int.le_ceil q
      have hcast : (⌈q⌉ : ℚ) ≤ 1 := by exact_mod_cast h1
      linarith
    exact ⟨hq1, fun h => h⟩
  | succ fuel ih =>
    intro q hf
    by_cases hq : q > 1
    · have hceil : ⌈q - 1⌉ = ⌈q⌉ - 1 := by
        have h := Int.ceil_sub_int q (1 : Int)
        simp only [Int.cast_one] at h
        exact h
      have hrec := ih (q - 1) (by rw [hceil]; push_cast at hf ⊢; omega)
      constructor
      · simpa [wrapDownAux, hq] using hrec.1
      · intro h0
        simpa [wrapDownAux, hq] using hrec.2 (by linarith)
    · constructor
      · simpa [wrapDownAux, hq] using not_lt.mp hq
      · intro h0
        simpa [wrapDownAux, hq] using h0

lemma wrapDown_bounds (q : ℚ) : wrapDown q ≤ 1 ∧ (0 < q → 0 < wrapDown q) := by
  apply wrapDownAux_bounds
  have := Int.self_le_toNat ⌈q⌉
  omega

lemma naWrap_bounds (q : ℚ) : 0 ≤ naWrap q ∧ naWrap q ≤ 1 := by
  unfold naWrap
  by_cases h0 : q < 0
  · rw [if_pos h0]
    obtain ⟨hl, hu⟩ := wrapUp_bounds (q + 1)
    exact ⟨hl, le_of_lt (hu (by linarith))⟩
  · rw [if_neg h0]
    by_cases h1 : q > 1
    · rw [if_pos h1]
      obtain ⟨hu, hl⟩ := wrapDown_bounds (q - 1)
      exact ⟨le_of_lt (hl (by linarith)), hu⟩
    · rw [if_neg h1]
      exact ⟨not_lt.mp h0, not_lt.mp h1⟩

/-- Claim C2: the engine's evolve is deterministic — two runs from an identical random
source state (same cursor, same stream from the cursor on) and identical input
population produce the identical output population and consume the same number of
draws — and it consumes randomness in exactly the order the spec states: for each
offspring in index order, one parent-a selection draw, one parent-b selection draw, one
coin flip per gene for crossover, then per gene one sign draw and one chance draw plus
one magnitude draw exactly when the perturbation triggers; `specEvolveEnd` is that
consumption order written out as cursor arithmetic. -/
theorem c2_evolve_determinism_and_draw_order {I : Type} (ops : IndividualOps I)
    (gm : GaussianMutation) (pop : List I) (L : Nat) (r r' : Rng)
    (hag : Rng.Agree r r')
    (hL : ∀ x ∈ pop, (ops.chromosome x).genes.length = L) :
    (gaEvolve ops gm pop r).map (fun p => (p.1, p.2.idx)) =
      (gaEvolve ops gm pop r').map (fun p => (p.1, p.2.idx)) ∧
    (∀ out rf, gaEvolve ops gm pop r = some (out, rf) →
      rf.idx = specEvolveEnd gm.chance r.stream L pop.length r.idx) := by
  constructor
  · unfold gaEvolve
    by_cases he : pop.isEmpty
    · rw [if_pos he, if_pos he]
    · rw [if_neg he, if_neg he]
      cases hx : evolveLoop ops gm pop pop.length r with
      | none =>
        rw [(agree_evolveLoop ops gm pop pop.length hag).1 hx]
      | some v =>
        obtain ⟨o, rf⟩ := v
        obtain ⟨rf', hx', ha⟩ := (agree_evolveLoop ops gm pop pop.length hag).2 o rf hx
        rw [hx']
        simp [ha.1]
  · intro out rf h
    unfold gaEvolve at h
    split at h
    · cases h
    · have h2 := evolveLoop_rng ops gm pop L hL pop.length r.stream r.idx out rf h
      rw [h2]

/-- Witness for C2 at a concrete one-individual population, genome length 1, and the
all-zero stream. -/
theorem c2_witness :
    Rng.Agree rng0 rng0 ∧
    (∀ x ∈ popW, (animalOps.chromosome x).genes.length = 1) ∧
    ((gaEvolve animalOps gmC popW rng0).map (fun p => (p.1, p.2.idx)) =
        (gaEvolve animalOps gmC popW rng0).map (fun p => (p.1, p.2.idx)) ∧
      (∀ out rf, gaEvolve animalOps gmC popW rng0 = some (out, rf) →
        rf.idx = specEvolveEnd gmC.chance rng0.stream 1 popW.length rng0.idx)) := by
  have hag : Rng.Agree rng0 rng0 := ⟨rfl, fun _ _ => rfl⟩
  have hL : ∀ x ∈ popW, (animalOps.chromosome x).genes.length = 1 := by decide
  exact ⟨hag, hL,
    c2_evolve_determinism_and_draw_order animalOps gmC popW 1 rng0 rng0 hag hL⟩

/-- Claim C5: crossover of two equal-length parents yields a child of the shared length;
mutation never changes genome length; evolve (when it returns) yields exactly as many
individuals as the input population. -/
theorem c5_length_preservation {I : Type} (ops : IndividualOps I) (gm : GaussianMutation)
    (r : Rng) (pa pb c : Chromosome) (pop : List I)
    (hab : pa.genes.length = pb.genes.length) :
    (∃ child r1, uniformCrossover r pa pb = some (child, r1) ∧
      child.genes.length = pa.genes.length) ∧
    (gaussianMutate gm r c).1.genes.length = c.genes.length ∧
    (∀ out rf, gaEvolve ops gm pop r = some (out, rf) → out.length = pop.length) := by
  refine ⟨?_, ?_, ?_⟩
  · refine ⟨⟨(crossoverGenes pa.genes pb.genes r).1⟩,
      (crossoverGenes pa.genes pb.genes r).2, ?_, ?_⟩
    · simp [uniformCrossover, hab]
    · simp [crossoverGenes_length, hab]
  · simp [gaussianMutate, mutateGenes_length]
  · intro out rf h
    unfold gaEvolve at h
    split at h
    · cases h
    · exact evolveLoop_length ops gm pop pop.length r out rf h

/-- Witness for C5 at concrete parents of length 2, a concrete genome, and the concrete
two-individual population. -/
theorem c5_witness :
    (⟨[1, 2]⟩ : Chromosome).genes.length = (⟨[3, 4]⟩ : Chromosome).genes.length ∧
    ((∃ child r1, uniformCrossover rng0 ⟨[1, 2]⟩ ⟨[3, 4]⟩ = some (child, r1) ∧
        child.genes.length = (⟨[1, 2]⟩ : Chromosome).genes.length) ∧
      (gaussianMutate gmC rng0 ⟨[5]⟩).1.genes.length = (⟨[5]⟩ : Chromosome).genes.length ∧
      (∀ out rf, gaEvolve animalOps gmC popC1 rng0 = some (out, rf) →
        out.length = popC1.length)) :=
  ⟨rfl, c5_length_preservation animalOps gmC rng0 ⟨[1, 2]⟩ ⟨[3, 4]⟩ ⟨[5]⟩ popC1 rfl⟩

/-- Claim C4 (amended): selection fails in exactly three cases — `noItem`
(EmptyPopulation) on an empty population, `invalidWeight` whenever some individual's
fitness is negative, and `allWeightsZero` (DegenerateWeights, a distinct condition) on a
non-empty population whose fitnesses are all zero; whenever every fitness is
non-negative and at least one is positive (equivalently the total is positive), select
succeeds and returns a member of the population. -/
theorem c4_select_failure_modes {I : Type} (fit : I → ℚ) (pop : List I) (r : Rng) :
    (pop = [] → rouletteSelect fit pop r = .error .noItem) ∧
    ((∃ x ∈ pop, fit x < 0) → rouletteSelect fit pop r = .error .invalidWeight) ∧
    (pop ≠ [] → (∀ x ∈ pop, 0 ≤ fit x) → (pop.map fit).sum = 0 →
      rouletteSelect fit pop r = .error .allWeightsZero) ∧
    ((∀ x ∈ pop, 0 ≤ fit x) → 0 < (pop.map fit).sum →
      ∃ x r1, rouletteSelect fit pop r = .ok (x, r1) ∧ x ∈ pop) := by
  refine ⟨?_, ?_, ?_, ?_⟩
  · rintro rfl; rfl
  · rintro ⟨x, hx, hneg⟩
    have hneg' : ∃ w ∈ pop.map fit, w < 0 := ⟨fit x, List.mem_map_of_mem fit hx, hneg⟩
    unfold rouletteSelect chooseWeighted
    rw [weightedIndexNew_neg _ hneg']
  · intro hne hnn hzero
    have hne' : pop.map fit ≠ [] := by
      simpa [List.map_eq_nil_iff] using hne
    have hnn' : ∀ w ∈ pop.map fit, 0 ≤ w := by
      intro w hw
      obtain ⟨x, hx, rfl⟩ := List.mem_map.mp hw
      exact hnn x hx
    unfold rouletteSelect chooseWeighted
    rw [weightedIndexNew_zero _ hne' hnn' hzero]
  · intro hnn hpos
    obtain ⟨x, hok, hmem⟩ := chooseWeighted_ok fit pop r hnn hpos
    exact ⟨x, (r.next).2, hok, hmem⟩

/-- Counterexample to claim C4 as stated: the fitness population `[1, -1]` contains an
individual with positive fitness, yet `RouletteWheelSelection::select` fails — rand's
`WeightedIndex::new` rejects any negative weight with `InvalidWeight`, a third failure
case the claim does not allow. -/
theorem c4_counterexample :
    (0 : ℚ) < 1 ∧ (1 : ℚ) ∈ [(1 : ℚ), -1] ∧
    rouletteSelect (fun q => q) [(1 : ℚ), -1] rng0 = .error .invalidWeight :=
  ⟨by norm_num, by simp, by rfl⟩

/-- Witness for C4 (amended), exercising the success case on fitnesses 1 and 2. -/
theorem c4_witness :
    (∀ x ∈ [(1 : ℚ), 2], 0 ≤ (fun q => q) x) ∧
    0 < (([(1 : ℚ), 2]).map (fun q => q)).sum ∧
    (∃ x r1, rouletteSelect (fun q => q) [(1 : ℚ), 2] rng0 = .ok (x, r1) ∧
      x ∈ [(1 : ℚ), 2]) :=
  ⟨by norm_num, by norm_num,
    (c4_select_failure_modes (fun q => q) [(1 : ℚ), 2] rng0).2.2.2
      (by norm_num) (by norm_num)⟩

/-- Claim C1 (code_bug evidence): evaluated at a concrete two-individual population,
`GeneticAlgorithm::evolve` as written in src returns a bare population of the input
size — its result carries no statistics component, although `Simulation::evolve`
destructures `(population, stats)` from this very call and the spec (§4.5) adopts the
population-plus-statistics contract. -/
theorem c1_engine_returns_bare_population :
    (gaEvolve animalOps gmC popC1 rng0).map (fun p => p.1) =
      some [⟨0, ⟨[1]⟩⟩, ⟨0, ⟨[1]⟩⟩] ∧
    (gaEvolve animalOps gmC popC1 rng0).map (fun p => p.1.length) = some 2 := by
  constructor
  · with_unfolding_all decide
  · with_unfolding_all decide

/-- Claim C10: construction of the Gaussian mutation strategy validates only the chance
parameter — it succeeds exactly when chance lies in [0,1], for every coefficient
whatsoever, including negative coefficients. -/
theorem c10_new_validates_only_chance (chance coeff : ℚ) :
    (GaussianMutation.new chance coeff).isSome = true ↔ (0 ≤ chance ∧ chance ≤ 1) := by
  unfold GaussianMutation.new
  by_cases h : 0 ≤ chance ∧ chance ≤ 1
  · rw [if_pos h]; simpa using h
  · rw [if_neg h]; simpa using h

/-- Claim C8 (amended): after every movement update each agent's position lies in the
closed unit square [0,1] × [0,1] — movement advances the position by
heading-direction × speed and wraps (never clamps) both coordinates, but `na::wrap`
returns a value equal to a bound unchanged, so exactly 1 is reachable and the
half-open square of the claim is not an invariant. -/
theorem c8_position_in_closed_unit_square (w : World) :
    ∀ a ∈ (processMovement w).animals,
      0 ≤ a.position.1 ∧ a.position.1 ≤ 1 ∧ 0 ≤ a.position.2 ∧ a.position.2 ≤ 1 := by
  intro a ha
  obtain ⟨b, -, rfl⟩ := List.mem_map.mp ha
  obtain ⟨h1, h2⟩ := naWrap_bounds (b.position.1 + -(b.rotation.2) * b.speed)
  obtain ⟨h3, h4⟩ := naWrap_bounds (b.position.2 + b.rotation.1 * b.speed)
  exact ⟨h1, h2, h3, h4⟩

set_option maxRecDepth 100000 in
/-- Counterexample to claim C8 as stated: an agent at (1/2, 1/2) with heading vector
(0, -1) and speed 1/2 moves to x = 1/2 + 1/2 = 1 exactly, and `na::wrap(1.0, 0.0,
1.0)` returns 1, which is outside the claimed half-open interval [0, 1). -/
theorem c8_counterexample :
    (processMovement worldC8).animals.map (fun a => a.position) = [(1, 1/2)] ∧
    ¬ ((1 : ℚ) < 1) :=
  ⟨by with_unfolding_all decide, by norm_num⟩

set_option maxRecDepth 100000 in
/-- Witness for C8 at a concrete world whose single animal does not move. -/
theorem c8_witness :
    animC ∈ (processMovement ⟨[animC], []⟩).animals ∧
    (0 ≤ animC.position.1 ∧ animC.position.1 ≤ 1 ∧
      0 ≤ animC.position.2 ∧ animC.position.2 ≤ 1) :=
  ⟨by with_unfolding_all decide,
    c8_position_in_closed_unit_square ⟨[animC], []⟩ animC (by with_unfolding_all decide)⟩

lemma forall2_trans {l1 l2 l3 : List Animal} (h12 : List.Forall₂ AnimalSim l1 l2)
    (h23 : List.Forall₂ AnimalSim l2 l3) : List.Forall₂ AnimalSim l1 l3 := by
  induction h12 generalizing l3 with
  | nil =>
    cases h23
    exact List.Forall₂.nil
  | cons h hs ih =>
    cases h23 with
    | cons h' hs' =>
      exact List.Forall₂.cons ⟨h'.1.trans h.1, h.2.trans h'.2⟩ (ih hs')

lemma forall2_mem_right {l1 l2 : List Animal} (h : List.Forall₂ AnimalSim l1 l2) :
    ∀ b ∈ l2, ∃ a ∈ l1, AnimalSim a b := by
  induction h with
  | nil => intro b hb; cases hb
  | cons hab hs ih =>
    intro b hb
    cases hb with
    | head => exact ⟨_, List.mem_cons_self _ _, hab⟩
    | tail _ hb' =>
      obtain ⟨a, ha, hs'⟩ := ih b hb'
      exact ⟨a, List.mem_cons_of_mem _ ha, hs'⟩

lemma forall2_mem_left {l1 l2 : List Animal} (h : List.Forall₂ AnimalSim l1 l2) :
    ∀ a ∈ l1, ∃ b ∈ l2, AnimalSim a b := by
  induction h with
  | nil => intro a ha; cases ha
  | cons hab hs ih =>
    intro a ha
    cases ha with
    | head => exact ⟨_, List.mem_cons_self _ _, hab⟩
    | tail _ ha' =>
      obtain ⟨b, hb, hs'⟩ := ih a ha'
      exact ⟨b, List.mem_cons_of_mem _ hb, hs'⟩

lemma collideFoods_sim (fs : List Food) : ∀ (a : Animal) (r : Rng),
    ∃ k, (collideFoods a fs r).1 = { a with satiation := a.satiation + k } := by
  induction fs with
  | nil =>
    intro a r
    exact ⟨0, by simp [collideFoods]⟩
  | cons f fs ih =>
    intro a r
    simp only [collideFoods]
    by_cases hd : dist2 a.position f.position ≤ 1 / 10000
    · rw [if_pos hd]
      obtain ⟨k, hk⟩ := ih { a with satiation := a.satiation + 1 } r.genPoint.2
      refine ⟨k + 1, ?_⟩
      show (collideFoods { a with satiation := a.satiation + 1 } fs r.genPoint.2).1 = _
      rw [hk]
      simp only [Animal.mk.injEq, and_true, true_and]
      omega
    · rw [if_neg hd]
      obtain ⟨k, hk⟩ := ih a r
      exact ⟨k, hk⟩

lemma collideFoods_animalSim (a : Animal) (fs : List Food) (r : Rng) :
    AnimalSim a (collideFoods a fs r).1 := by
  obtain ⟨k, hk⟩ := collideFoods_sim fs a r
  rw [hk]
  exact ⟨rfl, by simp⟩

lemma processCollisions_sim : ∀ (as_ : List Animal) (fs : List Food) (r : Rng),
    List.Forall₂ AnimalSim as_ (processCollisions as_ fs r).1 := by
  intro as_
  induction as_ with
  | nil => intro fs r; exact List.Forall₂.nil
  | cons a as_ ih =>
    intro fs r
    exact List.Forall₂.cons (collideFoods_animalSim a fs r) (ih _ _)

lemma forall2_map (f : Animal → Animal) (h : ∀ a, AnimalSim a (f a)) :
    ∀ l : List Animal, List.Forall₂ AnimalSim l (l.map f) := by
  intro l
  induction l with
  | nil => exact List.Forall₂.nil
  | cons a l ih => exact List.Forall₂.cons (h a) ih

lemma brainStep_animalSim (env : SimEnv) (fs : List Food) (a : Animal) :
    AnimalSim a (brainStep env fs a) := ⟨rfl, le_refl _⟩

lemma moveAnimal_animalSim (a : Animal) : AnimalSim a (moveAnimal a) := ⟨rfl, le_refl _⟩

lemma stepWorld_sim (env : SimEnv) (w : World) (r : Rng) :
    List.Forall₂ AnimalSim w.animals (stepWorld env w r).1.animals := by
  have h1 := processCollisions_sim w.animals w.foods r
  have h2 := forall2_map (brainStep env (processCollisions w.animals w.foods r).2.1)
    (brainStep_animalSim env _) (processCollisions w.animals w.foods r).1
  have h3 := forall2_map moveAnimal moveAnimal_animalSim
    (((processCollisions w.animals w.foods r).1).map
      (brainStep env (processCollisions w.animals w.foods r).2.1))
  exact forall2_trans (forall2_trans h1 h2) h3

lemma sum_pos_of_mem {l : List ℚ} (x : ℚ) (hx : x ∈ l) (hxpos : 0 < x)
    (hnn : ∀ y ∈ l, 0 ≤ y) : 0 < l.sum := by
  induction l with
  | nil => cases hx
  | cons a l ih =>
    rw [List.sum_cons]
    cases hx with
    | head =>
      have hrest : 0 ≤ l.sum :=
        List.sum_nonneg (fun y hy => hnn y (List.mem_cons_of_mem _ hy))
      linarith
    | tail _ hx' =>
      have ha : 0 ≤ a := hnn a (List.mem_cons_self _ _)
      have := ih hx' (fun y hy => hnn y (List.mem_cons_of_mem _ hy))
      linarith

lemma evolveLoop_ok {I : Type} (ops : IndividualOps I) (gm : GaussianMutation)
    (pop : List I) (L : Nat)
    (hnn : ∀ x ∈ pop, 0 ≤ ops.fitness x)
    (hpos : 0 < (pop.map ops.fitness).sum)
    (hL : ∀ x ∈ pop, (ops.chromosome x).genes.length = L) :
    ∀ (n : Nat) (r : Rng), ∃ out rf, evolveLoop ops gm pop n r = some (out, rf) := by
  intro n
  induction n with
  | zero => intro r; exact ⟨[], r, rfl⟩
  | succ n ih =>
    intro r
    obtain ⟨pa, hselA, hmemA⟩ := chooseWeighted_ok ops.fitness pop r hnn hpos
    obtain ⟨pb, hselB, hmemB⟩ := chooseWeighted_ok ops.fitness pop (r.next).2 hnn hpos
    have hA : rouletteSelect ops.fitness pop r = .ok (pa, (r.next).2) := hselA
    have hB : rouletteSelect ops.fitness pop (r.next).2
        = .ok (pb, ((r.next).2.next).2) := hselB
    have hcx : uniformCrossover ((r.next).2.next).2 (ops.chromosome pa) (ops.chromosome pb)
        = some (⟨(crossoverGenes (ops.chromosome pa).genes (ops.chromosome pb).genes
            ((r.next).2.next).2).1⟩,
          (crossoverGenes (ops.chromosome pa).genes (ops.chromosome pb).genes
            ((r.next).2.next).2).2) := by
      unfold uniformCrossover
      rw [if_pos (by rw [hL pa hmemA, hL pb hmemB])]
    obtain ⟨out, rf, hrec⟩ := ih (gaussianMutate gm
      (crossoverGenes (ops.chromosome pa).genes (ops.chromosome pb).genes
        ((r.next).2.next).2).2
      ⟨(crossoverGenes (ops.chromosome pa).genes (ops.chromosome pb).genes
        ((r.next).2.next).2).1⟩).2
    refine ⟨ops.create (gaussianMutate gm
      (crossoverGenes (ops.chromosome pa).genes (ops.chromosome pb).genes
        ((r.next).2.next).2).2
      ⟨(crossoverGenes (ops.chromosome pa).genes (ops.chromosome pb).genes
        ((r.next).2.next).2).1⟩).1 :: out, rf, ?_⟩
    simp only [evolveLoop]
    rw [hA]
    simp only []
    rw [hB]
    simp only []
    rw [hcx]
    simp only []
    rw [hrec]

lemma intoAnimals_length (env : SimEnv) : ∀ (l : List AnimalIndividual) (r : Rng),
    (intoAnimals env l r).1.length = l.length := by
  intro l
  induction l with
  | nil => intro r; rfl
  | cons i l ih =>
    intro r
    show (intoAnimals env l _).1.length + 1 = l.length + 1
    rw [ih]

lemma simulationEvolve_ok (env : SimEnv) (sim : Simulation) (r : Rng) (L : Nat)
    (hL : ∀ a ∈ sim.world.animals, a.brain.chromosome.genes.length = L)
    (hpos : ∃ a ∈ sim.world.animals, 0 < a.satiation) :
    ∃ stats sim2 r2, Simulation.evolve env sim r = some (stats, sim2, r2) ∧
      sim2.age = 0 ∧ sim2.world.animals.length = sim.world.animals.length := by
  have hnn : ∀ x ∈ sim.world.animals.map AnimalIndividual.fromAnimal,
      0 ≤ animalOps.fitness x := by
    intro x hx
    obtain ⟨a, -, rfl⟩ := List.mem_map.mp hx
    show (0 : ℚ) ≤ (a.satiation : ℚ)
    exact_mod_cast Nat.zero_le _
  have hsum : 0 < ((sim.world.animals.map AnimalIndividual.fromAnimal).map
      animalOps.fitness).sum := by
    obtain ⟨a, ha, hapos⟩ := hpos
    apply sum_pos_of_mem ((a.satiation : ℚ))
    · exact List.mem_map_of_mem _ (List.mem_map_of_mem _ ha)
    · exact_mod_cast hapos
    · intro y hy
      obtain ⟨x, hx, rfl⟩ := List.mem_map.mp hy
      exact hnn x hx
  have hLp : ∀ x ∈ sim.world.animals.map AnimalIndividual.fromAnimal,
      (animalOps.chromosome x).genes.length = L := by
    intro x hx
    obtain ⟨a, ha, rfl⟩ := List.mem_map.mp hx
    exact hL a ha
  obtain ⟨out, rf, hloop⟩ := evolveLoop_ok animalOps sim.gaMutation
    (sim.world.animals.map AnimalIndividual.fromAnimal) L hnn hsum hLp
    (sim.world.animals.map AnimalIndividual.fromAnimal).length r
  have hlenout := evolveLoop_length animalOps sim.gaMutation
    (sim.world.animals.map AnimalIndividual.fromAnimal)
    (sim.world.animals.map AnimalIndividual.fromAnimal).length r out rf hloop
  have hne : (sim.world.animals.map AnimalIndividual.fromAnimal).isEmpty = false := by
    obtain ⟨a, ha, -⟩ := hpos
    cases hw : sim.world.animals with
    | nil => rw [hw] at ha; cases ha
    | cons b bs => rfl
  have hga : gaEvolve animalOps sim.gaMutation
      (sim.world.animals.map AnimalIndividual.fromAnimal) r = some (out, rf) := by
    unfold gaEvolve
    rw [hne]
    simp only [Bool.false_eq_true, if_false]
    exact hloop
  refine ⟨statisticsOf ((sim.world.animals.map AnimalIndividual.fromAnimal).map
      animalOps.fitness),
    ⟨⟨(intoAnimals env out rf).1,
      (repositionFoods sim.world.foods (intoAnimals env out rf).2).1⟩,
     sim.gaMutation, 0⟩,
    (repositionFoods sim.world.foods (intoAnimals env out rf).2).2, ?_, rfl, ?_⟩
  · unfold Simulation.evolve gaEvolveWithStats
    simp only []
    rw [hga]
  · show (intoAnimals env out rf).1.length = _
    rw [intoAnimals_length, hlenout, List.length_map]

lemma step_below (env : SimEnv) (sim : Simulation) (r : Rng)
    (h : sim.age + 1 ≤ GENERATION_LENGTH) :
    Simulation.step env sim r =
      some (none, ⟨(stepWorld env sim.world r).1, sim.gaMutation, sim.age + 1⟩,
        (stepWorld env sim.world r).2) := by
  unfold Simulation.step
  simp only []
  rw [if_neg (not_lt.mpr h)]

lemma runSteps_below (env : SimEnv) (L : Nat) :
    ∀ (k : Nat) (sim : Simulation) (r : Rng),
      sim.age + k ≤ GENERATION_LENGTH →
      (∀ a ∈ sim.world.animals, a.brain.chromosome.genes.length = L) →
      (∃ a ∈ sim.world.animals, 0 < a.satiation) →
      ∃ sim1 r1, runSteps env k sim r = some (List.replicate k none, sim1, r1) ∧
        sim1.age = sim.age + k ∧
        sim1.world.animals.length = sim.world.animals.length ∧
        (∀ a ∈ sim1.world.animals, a.brain.chromosome.genes.length = L) ∧
        (∃ a ∈ sim1.world.animals, 0 < a.satiation) := by
  intro k
  induction k with
  | zero =>
    intro sim r h hL hpos
    exact ⟨sim, r, rfl, by omega, rfl, hL, hpos⟩
  | succ k ih =>
    intro sim r h hL hpos
    have hstep := step_below env sim r (by omega)
    have hsim := stepWorld_sim env sim.world r
    have hL1 : ∀ a ∈ (stepWorld env sim.world r).1.animals,
        a.brain.chromosome.genes.length = L := by
      intro a ha
      obtain ⟨b, hb, hsim'⟩ := forall2_mem_right hsim a ha
      rw [hsim'.1]
      exact hL b hb
    have hpos1 : ∃ a ∈ (stepWorld env sim.world r).1.animals, 0 < a.satiation := by
      obtain ⟨b, hb, hbpos⟩ := hpos
      obtain ⟨a, ha, hsim'⟩ := forall2_mem_left hsim b hb
      exact ⟨a, ha, lt_of_lt_of_le hbpos hsim'.2⟩
    have hlen1 := List.Forall₂.length_eq hsim
    obtain ⟨sim1, r1, hrun, hage, hlen2, hL2, hpos2⟩ :=
      ih ⟨(stepWorld env sim.world r).1, sim.gaMutation, sim.age + 1⟩
        (stepWorld env sim.world r).2
        (by show sim.age + 1 + k ≤ _; omega) hL1 hpos1
    have hage2 : sim1.age = sim.age + 1 + k := hage
    refine ⟨sim1, r1, ?_, by omega, ?_, hL2, hpos2⟩
    · simp only [runSteps, hstep, hrun, List.replicate_succ]
    · rw [hlen2]
      exact hlen1.symm

lemma step_boundary (env : SimEnv) (sim : Simulation) (r : Rng) (L : Nat)
    (hage : sim.age = GENERATION_LENGTH)
    (hL : ∀ a ∈ sim.world.animals, a.brain.chromosome.genes.length = L)
    (hpos : ∃ a ∈ sim.world.animals, 0 < a.satiation) :
    ∃ stats sim2 r2, Simulation.step env sim r = some (some stats, sim2, r2) ∧
      sim2.age = 0 ∧ sim2.world.animals.length = sim.world.animals.length := by
  have hsim := stepWorld_sim env sim.world r
  have hL1 : ∀ a ∈ (stepWorld env sim.world r).1.animals,
      a.brain.chromosome.genes.length = L := by
    intro a ha
    obtain ⟨b, hb, hsim'⟩ := forall2_mem_right hsim a ha
    rw [hsim'.1]
    exact hL b hb
  have hpos1 : ∃ a ∈ (stepWorld env sim.world r).1.animals, 0 < a.satiation := by
    obtain ⟨b, hb, hbpos⟩ := hpos
    obtain ⟨a, ha, hsim'⟩ := forall2_mem_left hsim b hb
    exact ⟨a, ha, lt_of_lt_of_le hbpos hsim'.2⟩
  have hlen1 := List.Forall₂.length_eq hsim
  obtain ⟨stats, sim2, r2, hev, hage2, hlen2⟩ :=
    simulationEvolve_ok env ⟨(stepWorld env sim.world r).1, sim.gaMutation, sim.age + 1⟩
      (stepWorld env sim.world r).2 L hL1 hpos1
  refine ⟨stats, sim2, r2, ?_, hage2, by rw [hlen2]; exact hlen1.symm⟩
  unfold Simulation.step
  simp only []
  rw [if_pos (by rw [hage]; exact Nat.lt_succ_self _), hev]

/-- Claim C3 (amended): starting from a freshly reset counter, in a well-formed
simulation (uniform genome length) where at least one animal has positive satiation,
stepping exactly `GENERATION_LENGTH` times returns no statistics on any step, and the
step immediately after fires exactly one generation-complete event, after which the
step counter is zero and the animal population size is unchanged from before the
event.  The positivity premise is forced by the code: with all-zero satiation the
boundary step panics inside roulette-wheel selection instead of firing (see the
counterexample). -/
theorem c3_boundary_firing (env : SimEnv) (sim : Simulation) (r : Rng) (L : Nat)
    (hage : sim.age = 0)
    (hL : ∀ a ∈ sim.world.animals, a.brain.chromosome.genes.length = L)
    (hpos : ∃ a ∈ sim.world.animals, 0 < a.satiation) :
    ∃ outs sim1 r1, runSteps env GENERATION_LENGTH sim r = some (outs, sim1, r1) ∧
      (∀ o ∈ outs, o = none) ∧
      ∃ stats sim2 r2, Simulation.step env sim1 r1 = some (some stats, sim2, r2) ∧
        sim2.age = 0 ∧ sim2.world.animals.length = sim1.world.animals.length := by
  obtain ⟨sim1, r1, hrun, hage1, hlen1, hL1, hpos1⟩ :=
    runSteps_below env L GENERATION_LENGTH sim r (by omega) hL hpos
  refine ⟨List.replicate GENERATION_LENGTH none, sim1, r1, hrun, ?_, ?_⟩
  · intro o ho
    exact List.eq_of_mem_replicate ho
  · exact step_boundary env sim1 r1 L (by omega) hL1 hpos1

/-- Witness for C3 (amended) at a concrete two-animal simulation with satiations 1
and 0, genome length 1, and the trivial environment. -/
theorem c3_witness :
    simW3.age = 0 ∧
    (∀ a ∈ simW3.world.animals, a.brain.chromosome.genes.length = 1) ∧
    (∃ a ∈ simW3.world.animals, 0 < a.satiation) ∧
    (∃ outs sim1 r1,
      runSteps envTriv GENERATION_LENGTH simW3 rng0 = some (outs, sim1, r1) ∧
      (∀ o ∈ outs, o = none) ∧
      ∃ stats sim2 r2, Simulation.step envTriv sim1 r1 = some (some stats, sim2, r2) ∧
        sim2.age = 0 ∧ sim2.world.animals.length = sim1.world.animals.length) := by
  have h1 : simW3.age = 0 := rfl
  have h2 : ∀ a ∈ simW3.world.animals, a.brain.chromosome.genes.length = 1 := by decide
  have h3 : ∃ a ∈ simW3.world.animals, 0 < a.satiation :=
    ⟨animC1, List.mem_cons_self _ _, by decide⟩
  exact ⟨h1, h2, h3, c3_boundary_firing envTriv simW3 rng0 1 h1 h2 h3⟩

set_option maxRecDepth 100000 in
lemma stepWorldFix : stepWorld envTriv worldC rng0 = (worldC, rng0) := by
  with_unfolding_all rfl

lemma stepFix (j : Nat) (h : j + 1 ≤ GENERATION_LENGTH) :
    Simulation.step envTriv (simAt j) rng0 = some (none, simAt (j + 1), rng0) := by
  have hs := step_below envTriv (simAt j) rng0 h
  rw [hs]
  have hw : stepWorld envTriv (simAt j).world rng0 = (worldC, rng0) := stepWorldFix
  rw [hw]
  rfl

lemma runStepsFix : ∀ (k j : Nat), j + k ≤ GENERATION_LENGTH →
    runSteps envTriv k (simAt j) rng0
      = some (List.replicate k none, simAt (j + k), rng0) := by
  intro k
  induction k with
  | zero =>
    intro j h
    simp [runSteps]
  | succ k ih =>
    intro j h
    have hstep := stepFix j (by omega)
    have hrec := ih (j + 1) (by omega)
    simp only [runSteps, hstep, hrec, List.replicate_succ]
    rw [show j + 1 + k = j + (k + 1) from by omega]

set_option maxRecDepth 1000000 in
lemma stepBoundaryFail : Simulation.step envTriv (simAt GENERATION_LENGTH) rng0 = none := by
  with_unfolding_all rfl

lemma runSteps_snoc (env : SimEnv) : ∀ (n : Nat) (sim : Simulation) (r : Rng),
    runSteps env (n + 1) sim r =
      (match runSteps env n sim r with
      | none => none
      | some (outs, sim1, r1) =>
        match Simulation.step env sim1 r1 with
        | none => none
        | some (o, sim2, r2) => some (outs ++ [o], sim2, r2)) := by
  intro n
  induction n with
  | zero =>
    intro sim r
    simp only [runSteps]
    cases hs : Simulation.step env sim r with
    | none => rfl
    | some v =>
      obtain ⟨o, sim1, r1⟩ := v
      rfl
  | succ n ih =>
    intro sim r
    show (match Simulation.step env sim r with
      | none => none
      | some (o, sim1, r1) =>
        match runSteps env (n + 1) sim1 r1 with
        | none => none
        | some (outs, sim2, r2) => some (o :: outs, sim2, r2)) = _
    cases hs : Simulation.step env sim r with
    | none =>
      have hR : runSteps env (n + 1) sim r = none := by
        simp only [runSteps, hs]
      rw [hR]
    | some v =>
      obtain ⟨o, s1, r1⟩ := v
      simp only []
      rw [ih s1 r1]
      have hR : runSteps env (n + 1) sim r =
          (match runSteps env n s1 r1 with
          | none => none
          | some (outs, s2, r2) => some (o :: outs, s2, r2)) := by
        simp only [runSteps, hs]
      rw [hR]
      cases hrn : runSteps env n s1 r1 with
      | none => rfl
      | some w =>
        obtain ⟨outs, s2, r2⟩ := w
        simp only []
        cases hst : Simulation.step env s2 r2 with
        | none => rfl
        | some u =>
          obtain ⟨o2, s3, r3⟩ := u
          rfl

/-- Counterexample to claim C3 as stated: in a simulation whose animals all have zero
satiation (and never eat: there is no food), the step immediately past the
generation length does not fire a generation-complete event — roulette-wheel
selection panics on an all-zero-weight population (`AllWeightsZero` behind the
`expect`), so the 2501-step run aborts instead of producing exactly one event. -/
theorem c3_counterexample :
    (simAt 0).age = 0 ∧
    runSteps envTriv (GENERATION_LENGTH + 1) (simAt 0) rng0 = none := by
  refine ⟨rfl, ?_⟩
  rw [runSteps_snoc]
  rw [runStepsFix GENERATION_LENGTH 0 (by omega)]
  simp only [Nat.zero_add]
  rw [stepBoundaryFail]

lemma topScan_zero (as_ : List Animal) : ∀ (c : Chromosome),
    (∀ a ∈ as_, a.satiation = 0) → topScan as_ c 0 = (c, 0) := by
  induction as_ with
  | nil => intro c _; rfl
  | cons a as_ ih =>
    intro c h
    have ha : a.satiation = 0 := h a (List.mem_cons_self _ _)
    simp only [topScan, ha]
    rw [if_neg (lt_irrefl 0)]
    exact ih c (fun b hb => h b (List.mem_cons_of_mem _ hb))

lemma topScan_spec (as_ : List Animal) : ∀ (c : Chromosome) (s : Nat),
    (∀ b ∈ as_, b.satiation ≤ (topScan as_ c s).2) ∧
    s ≤ (topScan as_ c s).2 ∧
    (topScan as_ c s = (c, s) ∨
      ∃ a ∈ as_, (topScan as_ c s).1 = a.brain.chromosome ∧
        (topScan as_ c s).2 = a.satiation) := by
  induction as_ with
  | nil =>
    intro c s
    exact ⟨(by intro b hb; cases hb), le_refl _, Or.inl rfl⟩
  | cons a as_ ih =>
    intro c s
    simp only [topScan]
    by_cases hgt : a.satiation > s
    · rw [if_pos hgt]
      obtain ⟨h1, h2, h3⟩ := ih a.brain.chromosome a.satiation
      refine ⟨?_, by omega, ?_⟩
      · intro b hb
        cases hb with
        | head => exact h2
        | tail _ hb' => exact h1 b hb'
      · cases h3 with
        | inl heq =>
          exact Or.inr ⟨a, List.mem_cons_self _ _, by rw [heq], by rw [heq]⟩
        | inr hex =>
          obtain ⟨x, hx, hx1, hx2⟩ := hex
          exact Or.inr ⟨x, List.mem_cons_of_mem _ hx, hx1, hx2⟩
    · rw [if_neg hgt]
      obtain ⟨h1, h2, h3⟩ := ih c s
      refine ⟨?_, h2, ?_⟩
      · intro b hb
        cases hb with
        | head => omega
        | tail _ hb' => exact h1 b hb'
      · cases h3 with
        | inl heq => exact Or.inl heq
        | inr hex =>
          obtain ⟨x, hx, hx1, hx2⟩ := hex
          exact Or.inr ⟨x, List.mem_cons_of_mem _ hx, hx1, hx2⟩

lemma buildBest_spec (env : SimEnv) (c : Chromosome) : ∀ (n : Nat) (r : Rng),
    (buildBest env c n r).1.length = n ∧
    ∀ a ∈ (buildBest env c n r).1, a.brain = ⟨c⟩ := by
  intro n
  induction n with
  | zero =>
    intro r
    exact ⟨rfl, by intro a ha; cases ha⟩
  | succ n ih =>
    intro r
    constructor
    · show (buildBest env c n (Animal.new env ⟨c⟩ r).2).1.length + 1 = n + 1
      rw [(ih _).1]
    · intro a ha
      cases ha with
      | head => rfl
      | tail _ h' => exact (ih _).2 a h'

lemma repositionFoods_length : ∀ (fs : List Food) (r : Rng),
    (repositionFoods fs r).1.length = fs.length := by
  intro fs
  induction fs with
  | nil => intro r; rfl
  | cons f fs ih =>
    intro r
    show (repositionFoods fs _).1.length + 1 = fs.length + 1
    rw [ih]

/-- Claim C9: `choose_best` requires the population to contain more than one animal
(assertion), and on success replaces the population with exactly 40 new agents
regardless of the previous population size — so it breaks the constant-size invariant
whenever the prior size is not 40.  Every new agent carries the chromosome of the
(first) highest-satiation animal, or the chromosome of a fresh random animal when
every satiation is zero; the food count is preserved (every food is repositioned). -/
theorem c9_choose_best (env : SimEnv) (sim : Simulation) (r : Rng) :
    (sim.world.animals.length ≤ 1 → Simulation.chooseBest env sim r = none) ∧
    (1 < sim.world.animals.length →
      ∃ sim1 r1, Simulation.chooseBest env sim r = some (sim1, r1) ∧
        sim1.world.animals.length = 40 ∧
        sim1.world.foods.length = sim.world.foods.length ∧
        ((∀ a ∈ sim.world.animals, a.satiation = 0) →
          ∀ a ∈ sim1.world.animals,
            a.brain.chromosome = (Animal.random env r).1.brain.chromosome) ∧
        ((∃ a ∈ sim.world.animals, 0 < a.satiation) →
          ∃ b ∈ sim.world.animals,
            (∀ a2 ∈ sim.world.animals, a2.satiation ≤ b.satiation) ∧
            ∀ a ∈ sim1.world.animals, a.brain.chromosome = b.brain.chromosome)) := by
  constructor
  · intro hle
    unfold Simulation.chooseBest
    rw [if_neg (by omega)]
  · intro hgt
    unfold Simulation.chooseBest
    rw [if_pos hgt]
    refine ⟨_, _, rfl, ?_, ?_, ?_, ?_⟩
    · exact (buildBest_spec env _ 40 _).1
    · exact repositionFoods_length _ _
    · intro hzero a ha
      have htop := topScan_zero sim.world.animals
        (Animal.random env r).1.brain.chromosome hzero
      have hb := (buildBest_spec env _ 40 _).2 a ha
      have : a.brain.chromosome
          = (topScan sim.world.animals (Animal.random env r).1.brain.chromosome 0).1 := by
        rw [hb]
      rw [this, htop]
    · intro hpos
      obtain ⟨h1, h2, h3⟩ :=
        topScan_spec sim.world.animals (Animal.random env r).1.brain.chromosome 0
      cases h3 with
      | inl heq =>
        obtain ⟨x, hx, hxpos⟩ := hpos
        have hxle := h1 x hx
        rw [heq] at hxle
        omega
      | inr hex =>
        obtain ⟨b, hbmem, hb1, hb2⟩ := hex
        refine ⟨b, hbmem, ?_, ?_⟩
        · intro a2 ha2
          have := h1 a2 ha2
          omega
        · intro a ha
          have hb := (buildBest_spec env _ 40 _).2 a ha
          have : a.brain.chromosome
              = (topScan sim.world.animals (Animal.random env r).1.brain.chromosome 0).1 := by
            rw [hb]
          rw [this, hb1]

/-- Witness for C9 at a concrete two-animal, one-food simulation with satiations 0
and 1 under the trivial environment. -/
theorem c9_witness :
    1 < simC9.world.animals.length ∧
    (∃ sim1 r1, Simulation.chooseBest envTriv simC9 rng0 = some (sim1, r1) ∧
      sim1.world.animals.length = 40 ∧
      sim1.world.foods.length = simC9.world.foods.length ∧
      ((∀ a ∈ simC9.world.animals, a.satiation = 0) →
        ∀ a ∈ sim1.world.animals,
          a.brain.chromosome = (Animal.random envTriv rng0).1.brain.chromosome) ∧
      ((∃ a ∈ simC9.world.animals, 0 < a.satiation) →
        ∃ b ∈ simC9.world.animals,
          (∀ a2 ∈ simC9.world.animals, a2.satiation ≤ b.satiation) ∧
          ∀ a ∈ sim1.world.animals, a.brain.chromosome = b.brain.chromosome)) :=
  ⟨by decide, (c9_choose_best envTriv simC9 rng0).2 (by decide)⟩
